import Mathlib

/-!
Verification of the networking mini-tool (`src/tool.py`).

This file shallowly embeds the core of the tool — topology construction
(`build_topology`), rule-based issue detection (`detect_issues`), the demand
simulator (`estimate_endpoint_demands`), the load-balancing recommender
(`recommend_load_balancing`) and the Day-1 discovery simulation
(`NodeThread` / `run_day1_sim`) — and proves or refutes the specification
claims about them.

Modelling conventions:
* Python dicts become insertion-ordered association lists (Python dicts are
  ordered and their keys are unique).
* Python sets holding link tuples become duplicate-free lists, with set-`add`
  modelled as append-if-absent (iteration order over a Python set is
  unspecified; no claim depends on it).
* The `networkx` graph becomes a record of a node list and an edge list keyed
  by an (unordered-up-to-lookup) pair of device names.  `nx.Graph.add_edge`
  with an explicit `links=set()` attribute *overwrites* the attribute of an
  existing edge; this behaviour is modelled faithfully.
* Randomness in the demand simulator becomes an explicit oracle argument, and
  Python exceptions become `Except`.
* Real time in the Day-1 simulation becomes a nondeterministic interleaving of
  atomic events (a small-step relation realised as an executable step
  function); the expiry of the 2.0-second window is a nondeterministic
  `finish` event.
-/

namespace NetTool

/-- One link record `(sideA device, sideA ifname, sideB device, sideB ifname)`. -/
abbrev Link := String × String × String × String

/-- `InterfaceSpec`: the per-interface dictionary produced by `parse_config`.
`mtu` defaults to 1500 and `bw` to 100000 upstream; `connects_to` is the
optional explicit neighbor hint `(peer device, peer interface)`. -/
structure InterfaceSpec where
  name : String
  ip : Option String
  mask : Option String
  vlan : Option String
  mtu : Nat
  bw : Nat
  connects_to : Option (String × String)
deriving DecidableEq

/-- `ConfigRecord`: the per-device dictionary produced by `parse_config`. -/
structure ConfigRecord where
  hostname : String
  device_type : String
  interfaces : List InterfaceSpec
  vlans : List (String × String)
  routes : List (String × String × String)
  protocols : List String
  default_gateway : Option String
  asn : Option Nat
deriving DecidableEq

/-- The input of the core: the mapping device name → `ConfigRecord`
(`parsed` in `tool.py`), as an insertion-ordered association list. -/
abbrev Parsed := List (String × ConfigRecord)

/-- Node attributes stored by `build_topology` via `G.add_node`. -/
structure NodeAttr where
  device_type : String
  protocols : List String
  asn : Option Nat
deriving DecidableEq

/-- Edge attributes of the `networkx` graph: the `links` set and the two
attributes added by the annotation pass (absent before annotation, hence
`Option`, mirroring dict-key absence). -/
structure EdgeData where
  links : List Link
  capacity_kbps : Option Nat
  mtus : Option (List (Nat × Nat))
deriving DecidableEq

/-- The `networkx` undirected graph: insertion-ordered nodes and edges.
An edge is stored under the orientation of its first insertion and is looked
up under either orientation. -/
structure Graph where
  nodes : List (String × NodeAttr)
  edges : List ((String × String) × EdgeData)
deriving DecidableEq

/-- Does the stored key `k` denote the undirected edge `{u, v}`? -/
def keyMatches (u v : String) (k : String × String) : Bool :=
  (k.1 = u ∧ k.2 = v) ∨ (k.1 = v ∧ k.2 = u)

/-- `G.has_edge(u, v)`. -/
def Graph.has_edge (G : Graph) (u v : String) : Bool :=
  G.edges.any (fun e => keyMatches u v e.1)

/-- `G.add_node(n, **attr)`: update the attributes if the node exists,
otherwise append it. -/
def Graph.add_node (G : Graph) (n : String) (a : NodeAttr) : Graph :=
  if G.nodes.any (fun p => p.1 = n) then
    { G with nodes := G.nodes.map (fun p => if p.1 = n then (p.1, a) else p) }
  else
    { G with nodes := G.nodes ++ [(n, a)] }

/-- `G.add_edge(a, b, links=set())`: on an existing edge `networkx` *updates*
the attribute dict, resetting `links` to a fresh empty set; otherwise the edge
is appended with an empty link set (its endpoints are always already nodes at
every call site of `build_topology`). -/
def Graph.add_edge_reset_links (G : Graph) (u v : String) : Graph :=
  if G.has_edge u v then
    { G with edges := G.edges.map (fun e =>
        if keyMatches u v e.1 then (e.1, { e.2 with links := [] }) else e) }
  else
    { G with edges := G.edges ++ [((u, v), ⟨[], none, none⟩)] }

/-- `if not G.has_edge(n1, n2): G.add_edge(n1, n2, links=set())`. -/
def Graph.add_edge_if_absent (G : Graph) (u v : String) : Graph :=
  if G.has_edge u v then G
  else { G with edges := G.edges ++ [((u, v), ⟨[], none, none⟩)] }

/-- `G.edges[u, v]["links"].add(t)`: set-insert the link tuple. -/
def Graph.links_add (G : Graph) (u v : String) (t : Link) : Graph :=
  { G with edges := G.edges.map (fun e =>
      if keyMatches u v e.1 then
        (e.1, { e.2 with links := if t ∈ e.2.links then e.2.links else e.2.links ++ [t] })
      else e) }

/-- Dict lookup `parsed[n]` (call sites only use keys present in `parsed`). -/
def lookupRec (parsed : Parsed) (n : String) : Option ConfigRecord :=
  (parsed.find? (fun p => p.1 = n)).map (·.2)

/-- `n in parsed`. -/
def hasKey (parsed : Parsed) (n : String) : Bool :=
  parsed.any (fun p => p.1 = n)

/-- `build_topology`, node pass: `G.add_node(n, device_type=…, protocols=…, asn=…)`. -/
def addNodesPass (parsed : Parsed) : Graph :=
  parsed.foldl (fun G nd =>
    G.add_node nd.1 ⟨nd.2.device_type, nd.2.protocols, nd.2.asn⟩) ⟨[], []⟩

/-- `build_topology`, pass 1 (explicit `connects_to` hints):
for every interface hint `(b, b_if)` with `b in parsed`,
`G.add_edge(a, b, links=set())` followed by
`G.edges[a, b]["links"].add((a, intf["name"], b, b_if))`. -/
def pass1 (parsed : Parsed) (G0 : Graph) : Graph :=
  parsed.foldl (fun G nd =>
    nd.2.interfaces.foldl (fun G intf =>
      match intf.connects_to with
      | some bp =>
        if hasKey parsed bp.1 then
          (G.add_edge_reset_links nd.1 bp.1).links_add nd.1 bp.1
            (nd.1, intf.name, bp.1, bp.2)
        else G
      | none => G) G) G0

/-- The `iface_list` of `build_topology`: every
`(device, ifname, ip, mtu, bw)` with a present address, in input order. -/
def iface_list (parsed : Parsed) : List (String × String × String × Nat × Nat) :=
  parsed.flatMap (fun nd => nd.2.interfaces.filterMap (fun intf =>
    intf.ip.map (fun ip => (nd.1, intf.name, ip, intf.mtu, intf.bw))))

/-- `".".join(ip.split(".")[:3])`: the first three dotted fields. -/
def first3Octets (ip : String) : String :=
  ".".intercalate ((ip.splitOn ".").take 3)

/-- `itertools.combinations(l, 2)` in order. -/
def pairs2 {α : Type} : List α → List (α × α)
  | [] => []
  | x :: xs => (xs.map (fun y => (x, y))) ++ pairs2 xs

/-- `build_topology`, pass 2 (inferred shared-subnet adjacency): for every
unordered pair of address-bearing interfaces on distinct devices whose
addresses share the first three octets, ensure the edge exists and set-insert
the link tuple. -/
def pass2 (parsed : Parsed) (G0 : Graph) : Graph :=
  (pairs2 (iface_list parsed)).foldl (fun G pr =>
    if first3Octets pr.1.2.2.1 = first3Octets pr.2.2.2.1 ∧ pr.1.1 ≠ pr.2.1 then
      (G.add_edge_if_absent pr.1.1 pr.2.1).links_add pr.1.1 pr.2.1
        (pr.1.1, pr.1.2.1, pr.2.1, pr.2.2.1)
    else G) G0

/-- Bandwidth lookup of `build_topology`'s annotation pass:
`bw_a = 100000; for intf in parsed[a]["interfaces"]: if intf["name"] == ai: bw_a = intf["bw"]`
(the *last* matching interface wins, default 100000). -/
def resolveBw (parsed : Parsed) (dev iname : String) : Nat :=
  match lookupRec parsed dev with
  | some r => r.interfaces.foldl (fun acc intf => if intf.name = iname then intf.bw else acc) 100000
  | none => 100000

/-- MTU lookup of the annotation pass:
`next((x["mtu"] for x in parsed[a]["interfaces"] if x["name"] == ai), 1500)`
(the *first* matching interface, default 1500). -/
def resolveMtu (parsed : Parsed) (dev iname : String) : Nat :=
  match lookupRec parsed dev with
  | some r => ((r.interfaces.find? (fun intf => intf.name = iname)).map (·.mtu)).getD 1500
  | none => 1500

/-- `min(bw_a, bw_b)` for one link tuple. -/
def linkMinBw (parsed : Parsed) (t : Link) : Nat :=
  min (resolveBw parsed t.1 t.2.1) (resolveBw parsed t.2.2.1 t.2.2.2)

/-- The annotation pass on one edge:
`cap = Σ min(bw_a, bw_b)`; `data["capacity_kbps"] = cap if cap else 100000`;
`data["mtus"] = [(mtu_a, mtu_b) per link]`. -/
def annotateEdge (parsed : Parsed) (d : EdgeData) : EdgeData :=
  let cap := d.links.foldl (fun acc t => acc + linkMinBw parsed t) 0
  { d with
    capacity_kbps := some (if cap = 0 then 100000 else cap)
    mtus := some (d.links.map (fun t =>
      (resolveMtu parsed t.1 t.2.1, resolveMtu parsed t.2.2.1 t.2.2.2))) }

/-- The annotation pass over all edges of the graph. -/
def annotate (parsed : Parsed) (G : Graph) : Graph :=
  { G with edges := G.edges.map (fun e => (e.1, annotateEdge parsed e.2)) }

/-- `build_topology(parsed)`. -/
def build_topology (parsed : Parsed) : Graph :=
  annotate parsed (pass2 parsed (pass1 parsed (addNodesPass parsed)))

/-! ### Reachability and breadth-first search over an edge-key list

`detect_issues` calls the library routine `nx.cycle_basis` and
`estimate_endpoint_demands` calls `nx.shortest_path`; both are external
`networkx` code, modelled here over the list of stored edge keys. -/

/-- The neighbors of `x` read off an edge-key list (either orientation;
a self-loop contributes `x` itself, as in `networkx`). -/
def nbrsIn (E : List (String × String)) (x : String) : List String :=
  E.filterMap (fun e => if e.1 = x then some e.2 else if e.2 = x then some e.1 else none)

/-- One round of reachable-set expansion: add every vertex joined by an edge
to the current set. -/
def reachStep (E : List (String × String)) (S : List String) : List String :=
  S ++ E.flatMap (fun e =>
    (if e.1 ∈ S ∧ e.2 ∉ S then [e.2] else []) ++
    (if e.2 ∈ S ∧ e.1 ∉ S then [e.1] else []))

/-- `n` rounds of expansion. -/
def reachN (E : List (String × String)) : Nat → List String → List String
  | 0, S => S
  | n + 1, S => reachN E n (reachStep E S)

/-- Executable undirected connectivity: `2·|E| + 1` rounds saturate, because a
simple path has at most `2·|E| + 1` vertices. -/
def connectedB (E : List (String × String)) (u v : String) : Bool :=
  v ∈ reachN E (2 * E.length + 1) [u]

/-- Breadth-first search for a path to `dst`; the frontier holds reversed
paths, `visited` the enqueued vertices. -/
def bfs (E : List (String × String)) (dst : String) :
    Nat → List (List String) → List String → Option (List String)
  | 0, _, _ => none
  | _ + 1, [], _ => none
  | fuel + 1, p :: rest, visited =>
    match p with
    | [] => none
    | x :: _ =>
      if x = dst then some p.reverse
      else
        let ns := (nbrsIn E x).filter (fun y => y ∉ visited)
        bfs E dst fuel (rest ++ ns.map (fun y => y :: p)) (visited ++ ns)

/-- Modelled from the spec: `nx.shortest_path(G, src, dst)` (external library
code, not part of this repository) returns a minimum-hop node path and raises
`NetworkXNoPath` when none exists; modelled as an `Option`-valued
breadth-first search.  No claim depends on which path is returned, only on
whether one is. -/
def shortest_path (E : List (String × String)) (src dst : String) : Option (List String) :=
  bfs E dst (2 * E.length + 2) [[src]] [src]

/-- Worker of the `cycle_basis` model: scan the edges left to right; an edge
whose endpoints are already connected by the earlier edges closes a cycle and
contributes one basis cycle (a self-loop is the one-vertex cycle `[u]`, as in
`networkx`). -/
def cbAux (seen : List (String × String)) : List (String × String) → List (List String)
  | [] => []
  | e :: todo =>
    if e.1 = e.2 then [e.1] :: cbAux (seen ++ [e]) todo
    else if connectedB seen e.1 e.2 then
      ((shortest_path seen e.2 e.1).getD [e.2, e.1]) :: cbAux (seen ++ [e]) todo
    else cbAux (seen ++ [e]) todo

/-- Modelled from the spec: `nx.cycle_basis(G)` is external library code, not
part of this repository; per its contract ("returns a list of cycles which
form a basis for cycles of G") it is modelled as one basis cycle per edge that
closes a cycle over a growing spanning forest.  Its result is non-empty
exactly when the graph has a cycle; only that emptiness, and the fact that the
full returned list is embedded in the issue, are relied on below. -/
def cycle_basis (G : Graph) : List (List String) :=
  cbAux [] (G.edges.map (·.1))

/-! ### Issue detection -/

/-- The `Issue` dictionaries appended by `detect_issues`, as a tagged variant. -/
inductive Issue where
  | duplicate_ip (ip : String) (devices : List String)
  | wrong_vlan_label (node intf vlan : String)
  | gateway_mismatch (node gateway : String)
  | mtu_mismatch (link : String) (mtu_a mtu_b : Nat)
  | network_loops (cycles : List (List String))
  | bgp_recommended (reason : String)
deriving DecidableEq

/-- `all_ips`: every `(device, vlan or "no-vlan", ip)` triple, in input order. -/
def all_ips (parsed : Parsed) : List (String × String × String) :=
  parsed.flatMap (fun nd => nd.2.interfaces.filterMap (fun intf =>
    intf.ip.map (fun ip => (nd.1, intf.vlan.getD "no-vlan", ip))))

/-- Worker for `firstDedup`: drop elements already seen. -/
def firstDedupAux {α : Type} [DecidableEq α] (seen : List α) : List α → List α
  | [] => []
  | x :: xs =>
    if x ∈ seen then firstDedupAux seen xs
    else x :: firstDedupAux (seen ++ [x]) xs

/-- Distinct elements in order of first occurrence (`Counter` key order). -/
def firstDedup {α : Type} [DecidableEq α] (l : List α) : List α :=
  firstDedupAux [] l

/-- The duplicate-IP rule: `Counter` the addresses of `all_ips`; every address
with count `> 1` yields one issue listing the device of each occurrence. -/
def dup_ip_issues (parsed : Parsed) : List Issue :=
  let all := all_ips parsed
  let ips := all.map (fun t => t.2.2)
  (firstDedup ips).filterMap (fun ip =>
    if 1 < ips.count ip then
      some (.duplicate_ip ip ((all.filter (fun t => t.2.2 = ip)).map (fun t => t.1)))
    else none)

/-- The wrong-VLAN rule: on switches, an access VLAN id not defined in the
device's VLAN table. -/
def wrong_vlan_issues (parsed : Parsed) : List Issue :=
  parsed.flatMap (fun nd =>
    if nd.2.device_type = "switch" then
      nd.2.interfaces.filterMap (fun intf =>
        match intf.vlan with
        | some v =>
          if (nd.2.vlans.find? (fun p => p.1 = v)).isNone then
            some (.wrong_vlan_label nd.1 intf.name v)
          else none
        | none => none)
    else [])

/-- The gateway rule: a declared default gateway with no interface address in
the same /24. -/
def gateway_issues (parsed : Parsed) : List Issue :=
  parsed.filterMap (fun nd =>
    match nd.2.default_gateway with
    | some gw =>
      if nd.2.interfaces.any (fun intf =>
          match intf.ip with
          | some ip => first3Octets ip = first3Octets gw
          | none => false) then none
      else some (.gateway_mismatch nd.1 gw)
    | none => none)

/-- The MTU rule: one issue per stored MTU pair whose sides differ
(`ed.get("mtus", [])`). -/
def mtu_issues (G : Graph) : List Issue :=
  G.edges.flatMap (fun e =>
    (e.2.mtus.getD []).filterMap (fun p =>
      if p.1 ≠ p.2 then some (.mtu_mismatch (e.1.1 ++ "-" ++ e.1.2) p.1 p.2) else none))

/-- The loop rule: `cycles = list(nx.cycle_basis(G)); if cycles: append`. -/
def loop_issues (G : Graph) : List Issue :=
  let cycles := cycle_basis G
  if cycles.isEmpty then [] else [.network_loops cycles]

/-- `asns = [d.get("asn") for n, d in parsed.items() if d.get("asn")]`:
Python truthiness drops both a missing ASN and ASN `0`. -/
def asnsOf (parsed : Parsed) : List Nat :=
  parsed.filterMap (fun nd =>
    match nd.2.asn with
    | some a => if a ≠ 0 then some a else none
    | none => none)

/-- The multi-ASN rule: `if len(set(asns)) > 1` emit the advisory. -/
def bgp_issues (parsed : Parsed) : List Issue :=
  if 1 < (firstDedup (asnsOf parsed)).length then
    [.bgp_recommended "Multiple autonomous systems detected"]
  else []

/-- `detect_issues(parsed, G)`: the six rules run in fixed order, findings
accumulate. -/
def detect_issues (parsed : Parsed) (G : Graph) : List Issue :=
  dup_ip_issues parsed ++ wrong_vlan_issues parsed ++ gateway_issues parsed
    ++ mtu_issues G ++ loop_issues G ++ bgp_issues parsed

/-! ### Demand simulation and load balancing -/

/-- The fixed demand palette of `estimate_endpoint_demands`. -/
def demandChoices : List Nat := [1000, 5000, 10000, 20000, 40000]

/-- `edge_load[e] = edge_load.get(e, 0) + demand` on an insertion-ordered
dict: update in place, or append the new key. -/
def loadAdd (m : List ((String × String) × Nat)) (k : String × String) (d : Nat) :
    List ((String × String) × Nat) :=
  if m.any (fun p => p.1 = k) then
    m.map (fun p => if p.1 = k then (p.1, p.2 + d) else p)
  else m ++ [(k, d)]

/-- Code-point comparison of character lists: Python's lexicographic string
order. -/
def charListLt : List Char → List Char → Bool
  | _, [] => false
  | [], _ :: _ => true
  | x :: xs, y :: ys =>
    if x.toNat < y.toNat then true
    else if y.toNat < x.toNat then false
    else charListLt xs ys

/-- Python string `<`: lexicographic by Unicode code point. -/
def strLt (a b : String) : Bool := charListLt a.data b.data

/-- `tuple(sorted((a, b)))` on a two-string tuple. -/
def sortPair (a b : String) : String × String :=
  if strLt b a then (b, a) else (a, b)

/-- `estimate_endpoint_demands(parsed, G)` with the random source made
explicit: trial `k` reads `(i, j, c)` from the oracle and interprets it as the
`random.sample(list(G.nodes()), 2)` outcome `(nodes[i % n],
nodes[(i + 1 + j % (n-1)) % n])` — every distinct ordered pair is realisable
and no equal pair is, matching sampling without replacement — and
`random.choice` outcome `demandChoices[c % 5]`.  `random.sample` raises
`ValueError` when the graph has fewer than two nodes; `nx.NetworkXNoPath`
is caught and the trial is skipped. -/
def estimate_endpoint_demands (_parsed : Parsed) (G : Graph)
    (rand : List (Nat × Nat × Nat)) : Except String (List ((String × String) × Nat)) :=
  let nodesL := G.nodes.map (·.1)
  let E := G.edges.map (·.1)
  let init : List ((String × String) × Nat) := G.edges.map (fun e => (e.1, 0))
  (List.range 6).foldlM (fun m k =>
    if nodesL.length < 2 then
      Except.error "Sample larger than population or is negative"
    else
      let r := rand.getD k (0, 0, 0)
      let n := nodesL.length
      let src := nodesL.getD (r.1 % n) ""
      let dst := nodesL.getD ((r.1 + 1 + r.2.1 % (n - 1)) % n) ""
      match shortest_path E src dst with
      | none => Except.ok m
      | some path =>
        let demand := demandChoices.getD (r.2.2 % 5) 1000
        Except.ok ((path.zip (path.drop 1)).foldl
          (fun m ab => loadAdd m (sortPair ab.1 ab.2) demand) m)) init

/-- One load-balancing recommendation record. -/
structure Reco where
  link : String
  load_kbps : Nat
  capacity_kbps : Nat
  suggestion : String
deriving DecidableEq

/-- Edge-data lookup under either orientation (`G.edges[a, b]`). -/
def Graph.edgeData (G : Graph) (u v : String) : Option EdgeData :=
  (G.edges.find? (fun e => keyMatches u v e.1)).map (·.2)

/-- `recommend_load_balancing(G, edge_load)`: one recommendation per loaded
edge whose load exceeds `capacity_kbps` (default 0).  Every key of the load
mapping denotes an edge of `G`, so the `G.edges[a, b]` lookup never fails. -/
def recommend_load_balancing (G : Graph) (load : List ((String × String) × Nat)) :
    List Reco :=
  load.filterMap (fun kl =>
    let cap := ((G.edgeData kl.1.1 kl.1.2).bind (·.capacity_kbps)).getD 0
    if cap < kl.2 then
      some ⟨kl.1.1 ++ "-" ++ kl.1.2, kl.2, cap,
        "Activate secondary path / move lower-priority traffic to backup (e.g., via alternate router)."⟩
    else none)

/-! ### Day-1 discovery simulation

`NodeThread` workers exchanging `NEIGHBOR_HELLO` / `NEIGHBOR_ACK` over
mailboxes are modelled as a small-step interleaving semantics: the scheduler
picks one atomic event at a time.  The 2.0-second per-worker window and the
orchestrator's 2.2-second soft join become the nondeterministic placement of
`finish` events in the schedule. -/

/-- The two message kinds of the simulation. -/
inductive MsgType where
  | NEIGHBOR_HELLO
  | NEIGHBOR_ACK
deriving DecidableEq

/-- The mutable state owned by one `NodeThread`: whether `run` has started,
whether its window has expired, its inbox queue and its event log. -/
structure NodeSt where
  started : Bool
  done : Bool
  inbox : List (String × MsgType)
  log : List (String × MsgType)
deriving DecidableEq

/-- The joint state of all workers, keyed by router name. -/
abbrev SimState := List (String × NodeSt)

/-- The router-kind nodes of the graph, in node order. -/
def routerNodes (G : Graph) : List String :=
  (G.nodes.filter (fun p => p.2.device_type = "router")).map (·.1)

/-- `G.neighbors(n)` read off the edge list. -/
def Graph.nbrs (G : Graph) (n : String) : List String :=
  G.edges.filterMap (fun e =>
    if e.1.1 = n then some e.1.2 else if e.1.2 = n then some e.1.1 else none)

/-- `neighborhood[n]`: the router neighbors of router `n`. -/
def routerNeighborhood (G : Graph) (n : String) : List String :=
  (G.nbrs n).filter (fun m => m ∈ routerNodes G)

/-- `run_day1_sim`'s initial state: one idle worker per router. -/
def initSim (G : Graph) : SimState :=
  (routerNodes G).map (fun n => (n, ⟨false, false, [], []⟩))

/-- `neighbor.inbox.put((self.name, msg))`: append to the target's mailbox. -/
def pushMsg (s : SimState) (target : String) (m : String × MsgType) : SimState :=
  s.map (fun p => if p.1 = target then (p.1, { p.2 with inbox := p.2.inbox ++ [m] }) else p)

/-- Read a worker's state. -/
def getSt (s : SimState) (n : String) : Option NodeSt :=
  (s.find? (fun p => p.1 = n)).map (·.2)

/-- Replace a worker's state. -/
def setSt (s : SimState) (n : String) (st : NodeSt) : SimState :=
  s.map (fun p => if p.1 = n then (p.1, st) else p)

/-- The atomic events of the interleaving semantics. -/
inductive Ev where
  | start (n : String)
  | recv (n : String)
  | poll (n : String)
  | finish (n : String)

/-- One scheduler step; `none` means the event is not enabled.
* `start n`: the worker's bootstrap — send `NEIGHBOR_HELLO` to every router
  neighbor's mailbox.
* `recv n`: `inbox.get` succeeds — pop the head message, log
  `(sender, kind)`, and reply `NEIGHBOR_ACK` to a `NEIGHBOR_HELLO`.
* `poll n`: `inbox.get` times out (`queue.Empty`) — no state change.
* `finish n`: the 2.0-second window expires — the worker stops for good. -/
def step (G : Graph) (s : SimState) : Ev → Option SimState
  | .start n =>
    match getSt s n with
    | some st =>
      if st.started ∨ st.done then none
      else
        some ((routerNeighborhood G n).foldl
          (fun acc m => pushMsg acc m (n, .NEIGHBOR_HELLO))
          (setSt s n { st with started := true }))
    | none => none
  | .recv n =>
    match getSt s n with
    | some st =>
      if st.started ∧ ¬ st.done then
        match st.inbox with
        | [] => none
        | msg :: rest =>
          if msg.2 = .NEIGHBOR_HELLO then
            some (pushMsg (setSt s n { st with inbox := rest, log := st.log ++ [msg] })
              msg.1 (n, .NEIGHBOR_ACK))
          else some (setSt s n { st with inbox := rest, log := st.log ++ [msg] })
      else none
    | none => none
  | .poll n =>
    match getSt s n with
    | some st => if st.started ∧ ¬ st.done then some s else none
    | none => none
  | .finish n =>
    match getSt s n with
    | some st =>
      if st.started ∧ ¬ st.done then some (setSt s n { st with done := true }) else none
    | none => none

/-- Run a schedule of events from a state. -/
def runTrace (G : Graph) (s : SimState) : List Ev → Option SimState
  | [] => some s
  | e :: es => (step G s e).bind (fun s1 => runTrace G s1 es)

/-- `run_day1_sim(G)` under a given schedule: run the workers, then collect
`{n: nodes[n].log}`. -/
def run_day1_sim (G : Graph) (schedule : List Ev) :
    Option (List (String × List (String × MsgType))) :=
  (runTrace G (initSim G) schedule).map (fun s =>
    (routerNodes G).map (fun n => (n, ((getSt s n).getD ⟨false, false, [], []⟩).log)))

/-! ### Concrete-input builders used by the witnesses and counterexamples -/

/-- An interface literal with the upstream parser's defaults. -/
def mkIf (name : String) (ip : Option String := none) (mtu : Nat := 1500)
    (bw : Nat := 100000) (ct : Option (String × String) := none)
    (vlan : Option String := none) : InterfaceSpec :=
  ⟨name, ip, ip.map (fun _ => "255.255.255.0"), vlan, mtu, bw, ct⟩

/-- A device record literal with the upstream parser's defaults. -/
def mkRec (ifs : List InterfaceSpec) (dt : String := "router")
    (asn : Option Nat := none) (gw : Option String := none) : ConfigRecord :=
  ⟨"h", dt, ifs, [], [], [], gw, asn⟩

/-- Claim 1 input: device `A` carries two explicit hints towards `B`,
one on `eth0` and one on `eth1`, so pass 1 handles two hints on one edge. -/
def parsedC1 : Parsed :=
  [("A", mkRec [mkIf "eth0" none 1500 100000 (some ("B", "p0")),
                mkIf "eth1" none 1500 100000 (some ("B", "p1"))]),
   ("B", mkRec [])]

/-- Claim 5 input: a single device, so `list(G.nodes())` has one element. -/
def parsedC5 : Parsed := [("A", mkRec [])]

/-- Claim 9 input: device `A` carries an explicit hint naming `A` itself. -/
def parsedC9 : Parsed := [("A", mkRec [mkIf "e0" none 1500 100000 (some ("A", "x"))])]

/-- Claim 3 input: one single device `A` carries the same address on two
interfaces. -/
def parsedC3 : Parsed :=
  [("A", mkRec [mkIf "e0" (some "10.0.0.1"), mkIf "e1" (some "10.0.0.1")])]

/-- Claim 8 input: two devices with ASNs `0` and `100` — two distinct ASN
values present across devices. -/
def parsedC8 : Parsed :=
  [("A", mkRec [] "router" (some 0)), ("B", mkRec [] "router" (some 100))]

/-- Claim 7 input: device `B` precedes `A`, and `B`'s explicit hint creates
the edge stored under the unsorted orientation `("B", "A")`. -/
def parsedC7 : Parsed :=
  [("B", mkRec [mkIf "e0" none 1500 100000 (some ("A", "x"))]), ("A", mkRec [])]

/-- The EdgeLoad mapping the demand simulator returns on `parsedC7` with the
all-zero random oracle. -/
def loadsC7 : List ((String × String) × Nat) := [(("B", "A"), 0), (("A", "B"), 6000)]

/-- Claim 2 input: the `A`-side of the one explicit link declares
`bandwidth 0`, so the per-link minimum and hence the whole capacity sum is 0. -/
def parsedC2 : Parsed :=
  [("A", mkRec [mkIf "e0" none 1500 0 (some ("B", "f0"))]),
   ("B", mkRec [mkIf "f0"])]

/-- The annotated data of the single edge of `parsedC2`. -/
def dC2 : EdgeData := ⟨[("A", "e0", "B", "f0")], some 100000, some [(1500, 1500)]⟩

end NetTool

namespace NetTool

/-! ### Spec-side definitions

These follow the specification's words, to be compared with the embedded
code. -/

/-- The spec's edge capacity: "the sum, over the edge's underlying link set,
of min(bandwidth of side A, bandwidth of side B)", each side resolved by
interface-name lookup with default 100000. -/
def specLinkCapSum (parsed : Parsed) (links : List Link) : Nat :=
  (links.map (fun t =>
    min (resolveBw parsed t.1 t.2.1) (resolveBw parsed t.2.2.1 t.2.2.2))).sum

/-- How many interfaces across all devices carry the address `ip`. -/
def ipOccurrences (parsed : Parsed) (ip : String) : Nat :=
  (parsed.map (fun nd => nd.2.interfaces.countP (fun intf => intf.ip = some ip))).sum

/-- The device of every interface carrying `ip`, in input order, with
multiplicity. -/
def ipUsers (parsed : Parsed) (ip : String) : List String :=
  parsed.flatMap (fun nd => nd.2.interfaces.filterMap (fun intf =>
    if intf.ip = some ip then some nd.1 else none))

/-- The number of distinct ASN values present and nonzero across devices. -/
def distinctPresentNonzeroAsns (parsed : Parsed) : Nat :=
  (firstDedup ((parsed.filterMap (fun nd => nd.2.asn)).filter (fun a => a ≠ 0))).length

/-- Recognizer for `mtu_mismatch` issues. -/
def isMtuIssue : Issue → Bool
  | .mtu_mismatch _ _ _ => true
  | _ => false

/-- Recognizer for `bgp_recommended` issues. -/
def isBgpIssue : Issue → Bool
  | .bgp_recommended _ => true
  | _ => false

/-! ### General lemmas -/

theorem foldl_add_map_sum {α : Type} (f : α → Nat) (l : List α) (n : Nat) :
    l.foldl (fun acc t => acc + f t) n = n + (l.map f).sum := by
  induction l generalizing n with
  | nil => simp
  | cons x xs ih => simp [ih, Nat.add_assoc]

theorem mem_firstDedupAux {α : Type} [DecidableEq α] (a : α) (l : List α) :
    ∀ seen : List α, a ∈ firstDedupAux seen l ↔ a ∈ l ∧ a ∉ seen := by
  induction l with
  | nil => intro seen; simp [firstDedupAux]
  | cons x xs ih =>
    intro seen
    unfold firstDedupAux
    by_cases hx : x ∈ seen
    · rw [if_pos hx, ih]
      by_cases hax : a = x
      · subst hax
        simp [hx]
      · simp [hax]
    · rw [if_neg hx]
      by_cases hax : a = x
      · subst hax
        simp [hx]
      · simp [hax, ih, List.mem_append, List.mem_singleton]

theorem mem_firstDedup {α : Type} [DecidableEq α] (a : α) (l : List α) :
    a ∈ firstDedup l ↔ a ∈ l := by
  unfold firstDedup
  rw [mem_firstDedupAux]
  simp

/-- The first stage of `build_topology` is the annotation map over the graph
assembled by the two passes. -/
theorem build_edges_eq (parsed : Parsed) :
    (build_topology parsed).edges =
      ((pass2 parsed (pass1 parsed (addNodesPass parsed))).edges).map
        (fun e => (e.1, annotateEdge parsed e.2)) := rfl

/-! ### Shape of each detection rule's output -/

theorem dup_ip_issues_shape (parsed : Parsed) :
    ∀ i ∈ dup_ip_issues parsed, ∃ ip devs, i = Issue.duplicate_ip ip devs := by
  intro i hi
  unfold dup_ip_issues at hi
  rcases List.mem_filterMap.mp hi with ⟨ip, _, heq⟩
  split at heq
  · exact ⟨_, _, (Option.some.inj heq).symm⟩
  · cases heq

theorem wrong_vlan_issues_shape (parsed : Parsed) :
    ∀ i ∈ wrong_vlan_issues parsed, ∃ n s v, i = Issue.wrong_vlan_label n s v := by
  intro i hi
  unfold wrong_vlan_issues at hi
  rcases List.mem_flatMap.mp hi with ⟨nd, _, hmem⟩
  split at hmem
  · rcases List.mem_filterMap.mp hmem with ⟨intf, _, heq⟩
    split at heq
    · split at heq
      · exact ⟨_, _, _, (Option.some.inj heq).symm⟩
      · cases heq
    · cases heq
  · cases hmem

theorem gateway_issues_shape (parsed : Parsed) :
    ∀ i ∈ gateway_issues parsed, ∃ n g, i = Issue.gateway_mismatch n g := by
  intro i hi
  unfold gateway_issues at hi
  rcases List.mem_filterMap.mp hi with ⟨nd, _, heq⟩
  split at heq
  · split at heq
    · cases heq
    · exact ⟨_, _, (Option.some.inj heq).symm⟩
  · cases heq

theorem mtu_issues_shape (G : Graph) :
    ∀ i ∈ mtu_issues G, ∃ l a b, i = Issue.mtu_mismatch l a b := by
  intro i hi
  unfold mtu_issues at hi
  rcases List.mem_flatMap.mp hi with ⟨e, _, hmem⟩
  rcases List.mem_filterMap.mp hmem with ⟨p, _, heq⟩
  split at heq
  · exact ⟨_, _, _, (Option.some.inj heq).symm⟩
  · cases heq

theorem loop_issues_shape (G : Graph) :
    ∀ i ∈ loop_issues G, i = Issue.network_loops (cycle_basis G) := by
  intro i hi
  simp only [loop_issues] at hi
  split at hi
  · cases hi
  · rw [List.mem_singleton] at hi
    exact hi

theorem bgp_issues_shape (parsed : Parsed) :
    ∀ i ∈ bgp_issues parsed,
      i = Issue.bgp_recommended "Multiple autonomous systems detected" := by
  intro i hi
  unfold bgp_issues at hi
  split at hi
  · rw [List.mem_singleton] at hi
    exact hi
  · cases hi

/-- A list all of whose members falsify `p` contributes no `countP p` count. -/
theorem countP_zero_of_all {l : List Issue} {p : Issue → Bool}
    (h : ∀ i ∈ l, p i = false) : l.countP p = 0 :=
  List.countP_eq_zero.mpr (fun a ha => by simp [h a ha])

/-- `countP` distributes over `flatMap` as a sum. -/
theorem countP_flatMap_sum {α β : Type} (f : α → List β) (p : β → Bool) (l : List α) :
    (l.flatMap f).countP p = (l.map (fun a => (f a).countP p)).sum := by
  induction l with
  | nil => rfl
  | cons x xs ih => simp [List.flatMap_cons, List.countP_append, ih]

/-- Counting the `mtu_mismatch` issues one edge contributes equals counting
its differing MTU pairs. -/
theorem mtu_per_edge_count (link : String) (ps : List (Nat × Nat)) :
    (ps.filterMap (fun p =>
        if p.1 ≠ p.2 then some (Issue.mtu_mismatch link p.1 p.2) else none)).countP
        isMtuIssue
      = ps.countP (fun p => p.1 ≠ p.2) := by
  rw [List.countP_filterMap]
  congr 1
  funext p
  by_cases h : p.1 = p.2 <;> simp [h, isMtuIssue]

/-- The address multiplicity counted by the `Counter` over `all_ips` equals
the spec-side interface count. -/
theorem count_ips_eq (parsed : Parsed) (ip : String) :
    ((all_ips parsed).map (fun t => t.2.2)).count ip = ipOccurrences parsed ip := by
  unfold all_ips ipOccurrences
  rw [List.map_flatMap, List.count_flatMap]
  apply congrArg List.sum
  apply List.map_congr_left
  intro nd _
  simp only [Function.comp_apply]
  rw [List.count_eq_countP, List.countP_map, List.countP_filterMap]
  apply List.countP_congr
  intro intf _
  cases h : intf.ip <;> simp [h]

/-- The `where` list of a duplicate-IP issue equals the spec-side user list. -/
theorem users_ips_eq (parsed : Parsed) (ip : String) :
    ((all_ips parsed).filter (fun t => t.2.2 = ip)).map (fun t => t.1) =
      ipUsers parsed ip := by
  unfold all_ips ipUsers
  induction parsed with
  | nil => rfl
  | cons nd rest ih =>
    rw [List.flatMap_cons, List.flatMap_cons, List.filter_append, List.map_append, ih]
    apply congrArg (· ++ _)
    rw [List.filter_filterMap, List.map_filterMap]
    apply congrArg (List.filterMap · nd.2.interfaces)
    funext intf
    cases h : intf.ip with
    | none => simp [h]
    | some a =>
      by_cases ha : a = ip <;> simp [h, ha, Option.filter]

/-- Python's truthiness filter on ASNs equals filtering the present values by
nonzero. -/
theorem asnsOf_eq (parsed : Parsed) :
    asnsOf parsed = (parsed.filterMap (fun nd => nd.2.asn)).filter (fun a => a ≠ 0) := by
  unfold asnsOf
  rw [List.filter_filterMap]
  apply congrArg (List.filterMap · parsed)
  funext nd
  cases h : nd.2.asn with
  | none => simp [h]
  | some a => by_cases ha : a = 0 <;> simp [h, ha, Option.filter]

/-! ### Claim theorems -/

/-- **C1** (code bug evaluation).  In pass 1 each hint executes
`G.add_edge(a, b, links=set())`, and on an existing edge `networkx` resets the
`links` attribute to the fresh empty set; so after pass 1 the edge `A–B` of
`parsedC1` holds only the tuple of the *last* processed hint — the tuple
`("A", "eth0", "B", "p0")` of the first hint has been dropped, contradicting
the claim that the link set keeps one tuple per hint. -/
theorem claim1_pass1_link_reset_bug :
    (build_topology parsedC1).edges.map (fun e => (e.1, e.2.links)) =
        [(("A", "B"), [("A", "eth1", "B", "p1")])] ∧
      ("A", "eth0", "B", "p0") ∉
        ((build_topology parsedC1).edges.map (fun e => e.2.links)).flatten := by
  decide

/-- **C5** (code bug evaluation).  On a one-device input the demand simulator
executes `random.sample(list(G.nodes()), 2)` with a one-element population and
raises `ValueError` — a fatal, uncaught error in the core, contradicting the
claim that no core operation raises a fatal error on any input. -/
theorem claim5_demand_sim_fatal_on_small_graph :
    estimate_endpoint_demands parsedC5 (build_topology parsedC5) [] =
      Except.error "Sample larger than population or is negative" := by
  rfl

/-- **C9** (code bug evaluation).  Pass 1 guards only `b in parsed`, not
`b != a`; an interface of `A` whose hint names `A` itself executes
`G.add_edge("A", "A", …)`, creating a self-loop edge and contradicting the
no-self-loops invariant (pass 2, by contrast, does guard `n1 != n2`). -/
theorem claim9_self_loop_from_explicit_hint :
    (build_topology parsedC9).has_edge "A" "A" = true ∧
      (build_topology parsedC9).edges.map (·.1) = [("A", "A")] := by
  decide

/-- **C2** (counterexample).  On `parsedC2` the sum over the edge's link set
of the per-link bandwidth minimum is 0 (side `A` declares `bandwidth 0`), but
the annotated `capacity_kbps` is 100000: the code's final
`cap if cap else 100000` clamp replaces a zero sum, so capacity does not
always equal the sum the claim states. -/
theorem claim2_counterexample :
    (build_topology parsedC2).edges.map (fun e => (e.1, e.2.links)) =
        [(("A", "B"), [("A", "e0", "B", "f0")])] ∧
      (build_topology parsedC2).edges.map (fun e => e.2.capacity_kbps) = [some 100000] ∧
      specLinkCapSum parsedC2 [("A", "e0", "B", "f0")] = 0 := by
  exact ⟨by decide, by decide, by decide⟩

/-- **C2** (amended).  For every edge of the built topology, `capacity_kbps`
equals the sum over the link set of `min(bandwidth_A, bandwidth_B)` (each side
resolved by interface-name lookup, default 100000) — except that a zero sum is
replaced by the default 100000 by the `cap if cap else 100000` clamp. -/
theorem claim2_capacity_clamped_sum (parsed : Parsed) (k : String × String)
    (d : EdgeData) (h : (k, d) ∈ (build_topology parsed).edges) :
    d.capacity_kbps =
      some (if specLinkCapSum parsed d.links = 0 then 100000
            else specLinkCapSum parsed d.links) := by
  rw [build_edges_eq] at h
  rcases List.mem_map.mp h with ⟨e, _, heq⟩
  obtain ⟨rfl, rfl⟩ : k = e.1 ∧ d = annotateEdge parsed e.2 := by
    cases heq; exact ⟨rfl, rfl⟩
  show (annotateEdge parsed e.2).capacity_kbps = _
  simp only [annotateEdge, specLinkCapSum, linkMinBw, foldl_add_map_sum, Nat.zero_add]

/-- **C2** (witness). -/
theorem claim2_witness :
    dC2.capacity_kbps =
      some (if specLinkCapSum parsedC2 dC2.links = 0 then 100000
            else specLinkCapSum parsedC2 dC2.links) :=
  claim2_capacity_clamped_sum parsedC2 ("A", "B") dC2 (by decide)

/-- **C4** (confirmed).  The number of `mtu_mismatch` issues the detector
emits equals the sum, over the edges of the built topology and over each
edge's underlying link set, of the indicator that the two sides' resolved MTU
values (first-match interface lookup, default 1500) differ: exactly one issue
per differing link, none for a link whose MTUs agree. -/
theorem claim4_mtu_mismatch_count (parsed : Parsed) :
    (detect_issues parsed (build_topology parsed)).countP isMtuIssue =
      ((build_topology parsed).edges.map (fun e =>
        e.2.links.countP (fun t =>
          resolveMtu parsed t.1 t.2.1 ≠ resolveMtu parsed t.2.2.1 t.2.2.2))).sum := by
  have h1 : (dup_ip_issues parsed).countP isMtuIssue = 0 :=
    countP_zero_of_all (fun i hi => by
      rcases dup_ip_issues_shape parsed i hi with ⟨ip, devs, rfl⟩; rfl)
  have h2 : (wrong_vlan_issues parsed).countP isMtuIssue = 0 :=
    countP_zero_of_all (fun i hi => by
      rcases wrong_vlan_issues_shape parsed i hi with ⟨n, s, v, rfl⟩; rfl)
  have h3 : (gateway_issues parsed).countP isMtuIssue = 0 :=
    countP_zero_of_all (fun i hi => by
      rcases gateway_issues_shape parsed i hi with ⟨n, g, rfl⟩; rfl)
  have h5 : (loop_issues (build_topology parsed)).countP isMtuIssue = 0 :=
    countP_zero_of_all (fun i hi => by
      rw [loop_issues_shape (build_topology parsed) i hi]; rfl)
  have h6 : (bgp_issues parsed).countP isMtuIssue = 0 :=
    countP_zero_of_all (fun i hi => by
      rw [bgp_issues_shape parsed i hi]; rfl)
  unfold detect_issues
  simp only [List.countP_append, h1, h2, h3, h5, h6, Nat.add_zero, Nat.zero_add]
  unfold mtu_issues
  rw [countP_flatMap_sum]
  rw [build_edges_eq, List.map_map, List.map_map]
  apply congrArg List.sum
  apply List.map_congr_left
  intro e _
  simp only [Function.comp_apply]
  rw [mtu_per_edge_count]
  show ((e.2.links.map fun t =>
      (resolveMtu parsed t.1 t.2.1, resolveMtu parsed t.2.2.1 t.2.2.2)).countP _) = _
  rw [List.countP_map]
  rfl

/-- **C3** (counterexample).  On `parsedC3` the detector emits a
`duplicate_ip` issue for `10.0.0.1` although the address appears on only one
distinct device: the code counts raw occurrences, not distinct devices, so
"fires iff the address appears on at least two distinct devices" is false. -/
theorem claim3_counterexample :
    Issue.duplicate_ip "10.0.0.1" ["A", "A"] ∈
        detect_issues parsedC3 (build_topology parsedC3) ∧
      (firstDedup (ipUsers parsedC3 "10.0.0.1")).length = 1 := by
  exact ⟨by decide, by decide⟩

/-- **C3** (amended).  The detector emits `duplicate_ip ip devs` iff the
address string `ip` appears on at least two interfaces counted with
multiplicity across all devices (two interfaces of one device suffice), and
`devs` lists the owning device of every such interface occurrence, in input
order, with repetition — in particular it names every device that used the
address. -/
theorem claim3_duplicate_ip_iff_multiplicity (parsed : Parsed) (ip : String)
    (devs : List String) :
    Issue.duplicate_ip ip devs ∈ detect_issues parsed (build_topology parsed) ↔
      (2 ≤ ipOccurrences parsed ip ∧ devs = ipUsers parsed ip) := by
  have hmem : Issue.duplicate_ip ip devs ∈ detect_issues parsed (build_topology parsed) ↔
      Issue.duplicate_ip ip devs ∈ dup_ip_issues parsed := by
    unfold detect_issues
    simp only [List.mem_append, or_assoc]
    constructor
    · rintro (h | h | h | h | h | h)
      · exact h
      · rcases wrong_vlan_issues_shape parsed _ h with ⟨n, s, v, heq⟩; cases heq
      · rcases gateway_issues_shape parsed _ h with ⟨n, g, heq⟩; cases heq
      · rcases mtu_issues_shape _ _ h with ⟨l, a, b, heq⟩; cases heq
      · have := loop_issues_shape _ _ h; cases this
      · have := bgp_issues_shape parsed _ h; cases this
    · intro h
      exact Or.inl h
  rw [hmem]
  simp only [dup_ip_issues, List.mem_filterMap]
  constructor
  · rintro ⟨ip', hip', heq⟩
    split at heq
    · rename_i hcount
      have h2 := Option.some.inj heq
      injection h2 with h3 h4
      subst h3
      subst h4
      rw [count_ips_eq] at hcount
      exact ⟨hcount, users_ips_eq parsed ip'⟩
    · cases heq
  · rintro ⟨hge, rfl⟩
    have hc : 1 < ((all_ips parsed).map (fun t => t.2.2)).count ip := by
      rw [count_ips_eq]
      omega
    refine ⟨ip, ?_, ?_⟩
    · rw [mem_firstDedup]
      have hpos : 0 < ((all_ips parsed).map (fun t => t.2.2)).count ip := by omega
      exact List.count_pos_iff.mp hpos
    · rw [if_pos hc, users_ips_eq]

/-- **C8** (counterexample).  On `parsedC8` two distinct ASN values (`0` and
`100`) appear across the devices, yet no `bgp_recommended` issue is emitted:
the Python truthiness filter `if d.get("asn")` also drops ASN `0`, so the
claim's "iff more than one distinct ASN value appears" fails. -/
theorem claim8_counterexample :
    (detect_issues parsedC8 (build_topology parsedC8)).countP isBgpIssue = 0 ∧
      1 < (firstDedup (parsedC8.filterMap (fun nd => nd.2.asn))).length := by
  exact ⟨by decide, by decide⟩

/-- **C8** (amended).  The detector emits exactly one `bgp_recommended` issue
iff more than one distinct ASN value appears among the devices whose ASN is
present *and nonzero* (ASN 0 is dropped by the truthiness filter), and no such
issue otherwise. -/
theorem claim8_bgp_count_iff_multiple_nonzero_asns (parsed : Parsed) :
    (detect_issues parsed (build_topology parsed)).countP isBgpIssue =
      if 1 < distinctPresentNonzeroAsns parsed then 1 else 0 := by
  have h1 : (dup_ip_issues parsed).countP isBgpIssue = 0 :=
    countP_zero_of_all (fun i hi => by
      rcases dup_ip_issues_shape parsed i hi with ⟨ip, devs, rfl⟩; rfl)
  have h2 : (wrong_vlan_issues parsed).countP isBgpIssue = 0 :=
    countP_zero_of_all (fun i hi => by
      rcases wrong_vlan_issues_shape parsed i hi with ⟨n, s, v, rfl⟩; rfl)
  have h3 : (gateway_issues parsed).countP isBgpIssue = 0 :=
    countP_zero_of_all (fun i hi => by
      rcases gateway_issues_shape parsed i hi with ⟨n, g, rfl⟩; rfl)
  have h4 : (mtu_issues (build_topology parsed)).countP isBgpIssue = 0 :=
    countP_zero_of_all (fun i hi => by
      rcases mtu_issues_shape _ i hi with ⟨l, a, b, rfl⟩; rfl)
  have h5 : (loop_issues (build_topology parsed)).countP isBgpIssue = 0 :=
    countP_zero_of_all (fun i hi => by
      rw [loop_issues_shape (build_topology parsed) i hi]; rfl)
  unfold detect_issues
  simp only [List.countP_append, h1, h2, h3, h4, h5, Nat.add_zero, Nat.zero_add]
  unfold bgp_issues distinctPresentNonzeroAsns
  rw [← asnsOf_eq]
  split
  · rfl
  · rfl

/-! ### Lemmas about the demand simulator's EdgeLoad keys (claim 7) -/

theorem charListLt_asymm :
    ∀ xs ys, charListLt xs ys = true → charListLt ys xs = false := by
  intro xs
  induction xs with
  | nil =>
    intro ys h
    cases ys with
    | nil => cases h
    | cons y ys => rfl
  | cons x xs ih =>
    intro ys h
    cases ys with
    | nil => cases h
    | cons y ys =>
      unfold charListLt at h ⊢
      by_cases h1 : x.toNat < y.toNat
      · rw [if_neg (Nat.lt_asymm h1), if_pos h1]
      · by_cases h2 : y.toNat < x.toNat
        · rw [if_neg h1, if_pos h2] at h
          cases h
        · rw [if_neg h1, if_neg h2] at h
          rw [if_neg h2, if_neg h1]
          exact ih ys h

theorem charListLt_eq_of_both_false :
    ∀ xs ys, charListLt xs ys = false → charListLt ys xs = false → xs = ys := by
  intro xs
  induction xs with
  | nil =>
    intro ys h1 _
    cases ys with
    | nil => rfl
    | cons y ys => cases h1
  | cons x xs ih =>
    intro ys h1 h2
    cases ys with
    | nil => cases h2
    | cons y ys =>
      unfold charListLt at h1 h2
      by_cases ha : x.toNat < y.toNat
      · rw [if_pos ha] at h1
        cases h1
      · by_cases hb : y.toNat < x.toNat
        · rw [if_pos hb] at h2
          cases h2
        · rw [if_neg ha, if_neg hb] at h1
          rw [if_neg hb, if_neg ha] at h2
          have hxy : x = y := by
            have hn : x.toNat = y.toNat :=
              Nat.le_antisymm (Nat.not_lt.mp hb) (Nat.not_lt.mp ha)
            have hv : x.val = y.val := by
              apply UInt32.ext
              exact hn
            exact Char.eq_of_val_eq hv
          rw [hxy, ih ys h1 h2]

theorem strLt_asymm (a b : String) (h : strLt a b = true) : strLt b a = false :=
  charListLt_asymm a.data b.data h

theorem strLt_eq_of_both_false (a b : String) (h1 : strLt a b = false)
    (h2 : strLt b a = false) : a = b := by
  have hd : a.data = b.data := charListLt_eq_of_both_false a.data b.data h1 h2
  cases a
  cases b
  cases hd
  rfl

/-- A canonicalized pair is never strictly decreasing. -/
theorem sortPair_not_decreasing (a b : String) :
    strLt (sortPair a b).2 (sortPair a b).1 = false := by
  unfold sortPair
  cases h : strLt b a with
  | true =>
    rw [if_pos rfl]
    exact strLt_asymm b a h
  | false =>
    rw [if_neg (by simp)]
    exact h

/-- Canonicalization is direction-independent. -/
theorem sortPair_comm (a b : String) : sortPair a b = sortPair b a := by
  unfold sortPair
  cases h1 : strLt b a with
  | true =>
    rw [strLt_asymm b a h1]
    rfl
  | false =>
    cases h2 : strLt a b with
    | true => rfl
    | false =>
      rw [strLt_eq_of_both_false a b h2 h1]

/-- Every key of a `loadAdd` result is an old key or the inserted key. -/
theorem loadAdd_keys (m : List ((String × String) × Nat)) (k : String × String)
    (d : Nat) (q : String × String) (v : Nat) (h : (q, v) ∈ loadAdd m k d) :
    (∃ w, (q, w) ∈ m) ∨ q = k := by
  unfold loadAdd at h
  split at h
  · rcases List.mem_map.mp h with ⟨p, hp, heq⟩
    split at heq
    · rename_i hpk
      left
      refine ⟨p.2, ?_⟩
      have hq : q = p.1 := by cases heq; rfl
      rw [hq]
      exact hp
    · left
      exact ⟨v, heq ▸ hp⟩
  · rcases List.mem_append.mp h with h | h
    · left
      exact ⟨v, h⟩
    · rw [List.mem_singleton] at h
      right
      cases h
      rfl

/-- Key-shape invariant of an EdgeLoad mapping relative to a graph: every key
is a stored edge key or non-decreasing (canonicalized). -/
def KeysOk (G : Graph) (m : List ((String × String) × Nat)) : Prop :=
  ∀ q v, (q, v) ∈ m → q ∈ G.edges.map (·.1) ∨ strLt q.2 q.1 = false

theorem keysOk_loadAdd_sorted (G : Graph) (m : List ((String × String) × Nat))
    (a b : String) (d : Nat) (hm : KeysOk G m) :
    KeysOk G (loadAdd m (sortPair a b) d) := by
  intro q v hq
  rcases loadAdd_keys m (sortPair a b) d q v hq with ⟨w, hw⟩ | rfl
  · exact hm q w hw
  · exact Or.inr (sortPair_not_decreasing a b)

theorem keysOk_foldl_path (G : Graph) (demand : Nat) :
    ∀ (steps : List (String × String)) (m : List ((String × String) × Nat)),
      KeysOk G m →
      KeysOk G (steps.foldl (fun m ab => loadAdd m (sortPair ab.1 ab.2) demand) m) := by
  intro steps
  induction steps with
  | nil => intro m hm; exact hm
  | cons s ss ih =>
    intro m hm
    exact ih _ (keysOk_loadAdd_sorted G m s.1 s.2 demand hm)

/-- A property preserved by every successful step of an `Except`-valued fold
holds of the fold's successful result. -/
theorem foldlM_preserve {σ : Type} (P : σ → Prop) (f : σ → Nat → Except String σ)
    (hf : ∀ m k m', P m → f m k = Except.ok m' → P m') :
    ∀ (l : List Nat) (m out : σ), P m → List.foldlM f m l = Except.ok out → P out := by
  intro l
  induction l with
  | nil =>
    intro m out hm h
    exact (Except.ok.inj h) ▸ hm
  | cons a as ih =>
    intro m out hm h
    rw [List.foldlM_cons] at h
    cases hfa : f m a with
    | error e =>
      rw [hfa] at h
      exact Except.noConfusion h
    | ok m1 =>
      rw [hfa] at h
      exact ih m1 out (hf m a m1 hm hfa) h

/-- **C7** (counterexample).  On `parsedC7` the returned EdgeLoad contains the
key `("B", "A")` — the stored (insertion-order) edge tuple, zero-initialized —
which is not the canonicalized sorted pair, falsifying "every key of the
EdgeLoad mapping is a canonicalized (sorted) device-name pair"; the demand of
the six trials accumulated under the separate sorted key `("A", "B")`. -/
theorem claim7_counterexample :
    estimate_endpoint_demands parsedC7 (build_topology parsedC7) [] =
        Except.ok loadsC7 ∧
      sortPair "B" "A" ≠ ("B", "A") ∧ (("B", "A"), 0) ∈ loadsC7 := by
  refine ⟨by rfl, by decide, by decide⟩

/-- **C7** (amended).  Every key of the EdgeLoad mapping returned by the
demand simulator is either one of the graph's stored edge tuples (the
zero-initialization keys, kept in stored orientation, not necessarily sorted)
or a canonicalized sorted pair (the keys under which demand is accumulated);
and the accumulation key is direction-independent, so a demand added along a
path lands in the same bucket whichever way the edge is traversed. -/
theorem claim7_edge_load_key_shape (parsed : Parsed) (rand : List (Nat × Nat × Nat))
    (loads : List ((String × String) × Nat)) (k : String × String) (v : Nat)
    (hok : estimate_endpoint_demands parsed (build_topology parsed) rand =
      Except.ok loads)
    (hmem : (k, v) ∈ loads) :
    (k ∈ (build_topology parsed).edges.map (·.1) ∨ strLt k.2 k.1 = false) ∧
      sortPair k.1 k.2 = sortPair k.2 k.1 := by
  refine ⟨?_, sortPair_comm k.1 k.2⟩
  unfold estimate_endpoint_demands at hok
  have hinit : KeysOk (build_topology parsed)
      ((build_topology parsed).edges.map (fun e => (e.1, 0))) := by
    intro q w hq
    rcases List.mem_map.mp hq with ⟨e, he, heq⟩
    left
    have hq1 : q = e.1 := by cases heq; rfl
    rw [hq1]
    exact List.mem_map.mpr ⟨e, he, rfl⟩
  have hstep : ∀ m k' m',
      KeysOk (build_topology parsed) m →
      (fun (m : List ((String × String) × Nat)) (k' : Nat) =>
        if ((build_topology parsed).nodes.map (·.1)).length < 2 then
          Except.error "Sample larger than population or is negative"
        else
          let r := rand.getD k' (0, 0, 0)
          let n := ((build_topology parsed).nodes.map (·.1)).length
          let src := ((build_topology parsed).nodes.map (·.1)).getD (r.1 % n) ""
          let dst := ((build_topology parsed).nodes.map (·.1)).getD
            ((r.1 + 1 + r.2.1 % (n - 1)) % n) ""
          match shortest_path ((build_topology parsed).edges.map (·.1)) src dst with
          | none => Except.ok m
          | some path =>
            let demand := demandChoices.getD (r.2.2 % 5) 1000
            Except.ok ((path.zip (path.drop 1)).foldl
              (fun m ab => loadAdd m (sortPair ab.1 ab.2) demand) m)) m k' =
        Except.ok m' →
      KeysOk (build_topology parsed) m' := by
    intro m k' m' hm hcall
    dsimp only at hcall
    split at hcall
    · exact Except.noConfusion hcall
    · split at hcall
      · exact (Except.ok.inj hcall) ▸ hm
      · refine (Except.ok.inj hcall) ▸ ?_
        exact keysOk_foldl_path _ _ _ m hm
  have := foldlM_preserve (KeysOk (build_topology parsed)) _ hstep (List.range 6)
    ((build_topology parsed).edges.map (fun e => (e.1, 0))) loads hinit hok
  exact this k v hmem

/-- **C7** (witness). -/
theorem claim7_witness :
    (("A", "B") ∈ (build_topology parsedC7).edges.map (·.1) ∨
        strLt ("A", "B").2 ("A", "B").1 = false) ∧
      sortPair ("A", "B").1 ("A", "B").2 = sortPair ("A", "B").2 ("A", "B").1 :=
  claim7_edge_load_key_shape parsedC7 [] loadsC7 ("A", "B") 6000 (by rfl) (by decide)

/-! ### Lemmas about the discovery simulation (claim 10) -/

theorem getSt_cons (p : String × NodeSt) (ps : SimState) (x : String) :
    getSt (p :: ps) x = if p.1 = x then some p.2 else getSt ps x := by
  unfold getSt
  by_cases h : p.1 = x
  · rw [if_pos h, List.find?_cons_of_pos]
    · rfl
    · simp [h]
  · rw [if_neg h, List.find?_cons_of_neg]
    simp [h]

theorem getSt_setSt_self (s : SimState) (n : String) (st : NodeSt) :
    getSt (setSt s n st) n = (getSt s n).map (fun _ => st) := by
  induction s with
  | nil => rfl
  | cons p ps ih =>
    by_cases hpn : p.1 = n <;>
      simp [setSt, getSt_cons, hpn, ih] <;>
      simp [setSt] at ih <;> exact ih

theorem getSt_setSt_other (s : SimState) (n : String) (st : NodeSt) (x : String)
    (hx : x ≠ n) : getSt (setSt s n st) x = getSt s x := by
  induction s with
  | nil => rfl
  | cons p ps ih =>
    by_cases hpn : p.1 = n
    · have hpx : p.1 ≠ x := by rw [hpn]; exact fun h => hx h.symm
      simp only [setSt, List.map_cons, if_pos hpn, getSt_cons]
      rw [if_neg hpx, if_neg hpx]
      simpa [setSt] using ih
    · simp only [setSt, List.map_cons, if_neg hpn, getSt_cons]
      by_cases hpx : p.1 = x
      · rw [if_pos hpx, if_pos hpx]
      · rw [if_neg hpx, if_neg hpx]
        simpa [setSt] using ih

theorem getSt_pushMsg_self (s : SimState) (t : String) (m : String × MsgType) :
    getSt (pushMsg s t m) t =
      (getSt s t).map (fun st => { st with inbox := st.inbox ++ [m] }) := by
  induction s with
  | nil => rfl
  | cons p ps ih =>
    by_cases hpt : p.1 = t <;>
      simp [pushMsg, getSt_cons, hpt] <;>
      simp [pushMsg] at ih <;> exact ih

theorem getSt_pushMsg_other (s : SimState) (t : String) (m : String × MsgType)
    (x : String) (hx : x ≠ t) : getSt (pushMsg s t m) x = getSt s x := by
  induction s with
  | nil => rfl
  | cons p ps ih =>
    by_cases hpt : p.1 = t
    · have hpx : p.1 ≠ x := by rw [hpt]; exact fun h => hx h.symm
      simp only [pushMsg, List.map_cons, if_pos hpt, getSt_cons]
      rw [if_neg hpx, if_neg hpx]
      simpa [pushMsg] using ih
    · simp only [pushMsg, List.map_cons, if_neg hpt, getSt_cons]
      by_cases hpx : p.1 = x
      · rw [if_pos hpx, if_pos hpx]
      · rw [if_neg hpx, if_neg hpx]
        simpa [pushMsg] using ih

/-- One worker state extends another: same flags and log, inbox only extended
by appended messages. -/
def NodeExt (a b : NodeSt) : Prop :=
  b.started = a.started ∧ b.done = a.done ∧ b.log = a.log ∧
    ∀ q, q ∈ a.inbox → q ∈ b.inbox

theorem nodeExt_refl (a : NodeSt) : NodeExt a a := ⟨rfl, rfl, rfl, fun _ h => h⟩

theorem nodeExt_trans {a b c : NodeSt} (h1 : NodeExt a b) (h2 : NodeExt b c) :
    NodeExt a c :=
  ⟨h2.1.trans h1.1, h2.2.1.trans h1.2.1, h2.2.2.1.trans h1.2.2.1,
    fun q hq => h2.2.2.2 q (h1.2.2.2 q hq)⟩

theorem nodeExt_carry {a b : NodeSt} (h : NodeExt a b) {q : String × MsgType}
    (hq : q ∈ a.inbox ∨ q ∈ a.log) : q ∈ b.inbox ∨ q ∈ b.log := by
  rcases hq with hq | hq
  · exact Or.inl (h.2.2.2 q hq)
  · right
    rw [h.2.2.1]
    exact hq

/-- Pointwise extension of whole simulation states (send-only effects). -/
def StExt (s s' : SimState) : Prop :=
  ∀ x, (getSt s x = none ∧ getSt s' x = none) ∨
    ∃ a b, getSt s x = some a ∧ getSt s' x = some b ∧ NodeExt a b

theorem stExt_refl (s : SimState) : StExt s s := by
  intro x
  cases h : getSt s x with
  | none => exact Or.inl ⟨rfl, rfl⟩
  | some a => exact Or.inr ⟨a, a, rfl, rfl, nodeExt_refl a⟩

theorem stExt_trans {s1 s2 s3 : SimState} (h1 : StExt s1 s2) (h2 : StExt s2 s3) :
    StExt s1 s3 := by
  intro x
  rcases h1 x with ⟨ha, hb⟩ | ⟨a, b, ha, hb, hab⟩
  · rcases h2 x with ⟨hc, hd⟩ | ⟨c, d, hc, hd, hcd⟩
    · exact Or.inl ⟨ha, hd⟩
    · rw [hb] at hc
      cases hc
  · rcases h2 x with ⟨hc, hd⟩ | ⟨c, d, hc, hd, hcd⟩
    · rw [hb] at hc
      cases hc
    · right
      refine ⟨a, d, ha, hd, ?_⟩
      cases Option.some.inj (hb.symm.trans hc)
      exact nodeExt_trans hab hcd

theorem stExt_pushMsg (s : SimState) (t : String) (m : String × MsgType) :
    StExt s (pushMsg s t m) := by
  intro x
  by_cases hx : x = t
  · subst hx
    cases h : getSt s x with
    | none => exact Or.inl ⟨rfl, by rw [getSt_pushMsg_self, h]; rfl⟩
    | some a =>
      exact Or.inr ⟨a, { a with inbox := a.inbox ++ [m] }, rfl,
        by rw [getSt_pushMsg_self, h]; rfl,
        ⟨rfl, rfl, rfl, fun q hq => List.mem_append_left _ hq⟩⟩
  · cases h : getSt s x with
    | none => exact Or.inl ⟨rfl, by rw [getSt_pushMsg_other s t m x hx]; exact h⟩
    | some a =>
      exact Or.inr ⟨a, a, rfl, by rw [getSt_pushMsg_other s t m x hx]; exact h,
        nodeExt_refl a⟩

theorem stExt_pushFold (m : String × MsgType) :
    ∀ (targets : List String) (s : SimState),
      StExt s (targets.foldl (fun acc t => pushMsg acc t m) s) := by
  intro targets
  induction targets with
  | nil => intro s; exact stExt_refl s
  | cons t ts ih =>
    intro s
    rw [List.foldl_cons]
    exact stExt_trans (stExt_pushMsg s t m) (ih (pushMsg s t m))

/-- After the bootstrap fold, every targeted mailbox contains the message. -/
theorem mem_inbox_pushFold (m : String × MsgType) :
    ∀ (targets : List String) (s : SimState) (B : String), B ∈ targets →
      ∀ stB', getSt (targets.foldl (fun acc t => pushMsg acc t m) s) B = some stB' →
        m ∈ stB'.inbox := by
  intro targets
  induction targets with
  | nil =>
    intro s B hB
    cases hB
  | cons t ts ih =>
    intro s B hB stB' hg
    rw [List.foldl_cons] at hg
    by_cases hBts : B ∈ ts
    · exact ih (pushMsg s t m) B hBts stB' hg
    · have hBt : B = t := by
        rcases List.mem_cons.mp hB with h | h
        · exact h
        · exact absurd h hBts
      subst hBt
      rcases (stExt_pushFold m ts (pushMsg s B m)) B with ⟨_, h2⟩ | ⟨a, b, ha, hb, hab⟩
      · rw [hg] at h2
        cases h2
      · cases Option.some.inj (hb.symm.trans hg)
        rw [getSt_pushMsg_self] at ha
        cases hs : getSt s B with
        | none =>
          rw [hs] at ha
          cases ha
        | some a0 =>
          rw [hs] at ha
          cases Option.some.inj ha
          exact hab.2.2.2 m (by simp)

/-- The claim-10 invariant: once `A` has started, its bootstrap
`NEIGHBOR_HELLO` is sitting in `B`'s mailbox or has been logged by `B`. -/
def HelloInv (A B : String) (s : SimState) : Prop :=
  ∀ stA stB, getSt s A = some stA → getSt s B = some stB → stA.started = true →
    (A, MsgType.NEIGHBOR_HELLO) ∈ stB.inbox ∨ (A, MsgType.NEIGHBOR_HELLO) ∈ stB.log

theorem step_preserves_helloInv (G : Graph) (A B : String)
    (hnbr : B ∈ routerNeighborhood G A) (s s' : SimState) (e : Ev)
    (hstep : step G s e = some s') (hinv : HelloInv A B s) : HelloInv A B s' := by
  cases e with
  | start n =>
    simp only [step] at hstep
    cases hget : getSt s n with
    | none => rw [hget] at hstep; cases hstep
    | some st =>
      rw [hget] at hstep
      dsimp only [] at hstep
      split at hstep
      · cases hstep
      · have hs' : s' = (routerNeighborhood G n).foldl
            (fun acc mm => pushMsg acc mm (n, MsgType.NEIGHBOR_HELLO))
            (setSt s n { st with started := true }) := (Option.some.inj hstep).symm
        subst hs'
        by_cases hnA : n = A
        · subst hnA
          intro stA' stB' _ hgB _
          exact Or.inl (mem_inbox_pushFold _ _ _ B hnbr stB' hgB)
        · intro stA' stB' hgA hgB hstA
          have hextA := (stExt_pushFold (n, MsgType.NEIGHBOR_HELLO)
            (routerNeighborhood G n) (setSt s n { st with started := true })) A
          have hextB := (stExt_pushFold (n, MsgType.NEIGHBOR_HELLO)
            (routerNeighborhood G n) (setSt s n { st with started := true })) B
          rcases hextA with ⟨_, h2⟩ | ⟨aA, bA, haA, hbA, hexA⟩
          · rw [hgA] at h2
            cases h2
          rcases hextB with ⟨_, h2⟩ | ⟨aB, bB, haB, hbB, hexB⟩
          · rw [hgB] at h2
            cases h2
          cases Option.some.inj (hbA.symm.trans hgA)
          cases Option.some.inj (hbB.symm.trans hgB)
          rw [getSt_setSt_other s n _ A (fun h => hnA h.symm)] at haA
          have hstA0 : aA.started = true := by rw [← hexA.1]; exact hstA
          by_cases hBn : B = n
          · subst hBn
            rw [getSt_setSt_self, hget] at haB
            cases Option.some.inj haB
            exact nodeExt_carry hexB (hinv aA st haA hget hstA0)
          · rw [getSt_setSt_other s n _ B hBn] at haB
            exact nodeExt_carry hexB (hinv aA aB haA haB hstA0)
  | recv n =>
    simp only [step] at hstep
    cases hget : getSt s n with
    | none => rw [hget] at hstep; cases hstep
    | some st =>
      rw [hget] at hstep
      dsimp only [] at hstep
      split at hstep
      · rename_i hcond
        split at hstep
        · cases hstep
        · rename_i msg rest hin
          have hext1 : StExt (setSt s n { st with inbox := rest, log := st.log ++ [msg] })
              s' := by
            split at hstep
            · cases Option.some.inj hstep
              exact stExt_pushMsg _ _ _
            · cases Option.some.inj hstep
              exact stExt_refl _
          intro stA' stB' hgA hgB hstA
          rcases hext1 A with ⟨_, h2⟩ | ⟨aA, bA, haA, hbA, hexA⟩
          · rw [hgA] at h2
            cases h2
          rcases hext1 B with ⟨_, h2⟩ | ⟨aB, bB, haB, hbB, hexB⟩
          · rw [hgB] at h2
            cases h2
          cases Option.some.inj (hbA.symm.trans hgA)
          cases Option.some.inj (hbB.symm.trans hgB)
          have hgA0 : ∃ a0, getSt s A = some a0 ∧ a0.started = true := by
            by_cases hAn : A = n
            · subst hAn
              exact ⟨st, hget, hcond.1⟩
            · rw [getSt_setSt_other s n _ A hAn] at haA
              exact ⟨aA, haA, by rw [← hexA.1]; exact hstA⟩
          rcases hgA0 with ⟨a0, ha0, hsa0⟩
          by_cases hBn : B = n
          · subst hBn
            rw [getSt_setSt_self, hget] at haB
            cases Option.some.inj haB
            have hbase := hinv a0 st ha0 hget hsa0
            have hmid : (A, MsgType.NEIGHBOR_HELLO) ∈ rest ∨
                (A, MsgType.NEIGHBOR_HELLO) ∈ st.log ++ [msg] := by
              rcases hbase with hq | hq
              · rw [hin] at hq
                rcases List.mem_cons.mp hq with heq | hq
                · right
                  rw [heq]
                  simp
                · exact Or.inl hq
              · exact Or.inr (List.mem_append_left _ hq)
            exact nodeExt_carry hexB hmid
          · rw [getSt_setSt_other s n _ B hBn] at haB
            exact nodeExt_carry hexB (hinv a0 aB ha0 haB hsa0)
      · cases hstep
  | poll n =>
    simp only [step] at hstep
    cases hget : getSt s n with
    | none => rw [hget] at hstep; cases hstep
    | some st =>
      rw [hget] at hstep
      dsimp only [] at hstep
      split at hstep
      · cases Option.some.inj hstep
        exact hinv
      · cases hstep
  | finish n =>
    simp only [step] at hstep
    cases hget : getSt s n with
    | none => rw [hget] at hstep; cases hstep
    | some st =>
      rw [hget] at hstep
      dsimp only [] at hstep
      split at hstep
      · have hs' : s' = setSt s n { st with done := true } := (Option.some.inj hstep).symm
        subst hs'
        intro stA' stB' hgA hgB hstA
        have hgA0 : ∃ a0, getSt s A = some a0 ∧ a0.started = true := by
          by_cases hAn : A = n
          · subst hAn
            rw [getSt_setSt_self, hget] at hgA
            cases Option.some.inj hgA
            exact ⟨st, hget, hstA⟩
          · rw [getSt_setSt_other s n _ A hAn] at hgA
            exact ⟨stA', hgA, hstA⟩
        rcases hgA0 with ⟨a0, ha0, hsa0⟩
        by_cases hBn : B = n
        · subst hBn
          rw [getSt_setSt_self, hget] at hgB
          cases Option.some.inj hgB
          exact hinv a0 st ha0 hget hsa0
        · rw [getSt_setSt_other s n _ B hBn] at hgB
          exact hinv a0 stB' ha0 hgB hsa0
      · cases hstep

/-- The invariant propagates along any valid schedule. -/
theorem runTrace_preserves_helloInv (G : Graph) (A B : String)
    (hnbr : B ∈ routerNeighborhood G A) :
    ∀ (trace : List Ev) (s s' : SimState), runTrace G s trace = some s' →
      HelloInv A B s → HelloInv A B s' := by
  intro trace
  induction trace with
  | nil =>
    intro s s' hrun hinv
    cases Option.some.inj hrun
    exact hinv
  | cons e es ih =>
    intro s s' hrun hinv
    simp only [runTrace] at hrun
    cases hstep : step G s e with
    | none => rw [hstep] at hrun; cases hrun
    | some s1 =>
      rw [hstep] at hrun
      exact ih s1 s' hrun (step_preserves_helloInv G A B hnbr s s1 e hstep hinv)

/-- In the initial state no worker has started, so the invariant holds. -/
theorem helloInv_initSim (G : Graph) (A B : String) : HelloInv A B (initSim G) := by
  intro stA stB hgA _ hstA
  unfold initSim getSt at hgA
  rcases hf : ((routerNodes G).map (fun n => (n, (⟨false, false, [], []⟩ : NodeSt)))).find?
      (fun p => p.1 = A) with _ | p
  · rw [hf] at hgA
    cases hgA
  · rw [hf] at hgA
    have hp := List.mem_of_find?_eq_some hf
    rcases List.mem_map.mp hp with ⟨x, _, hx⟩
    cases Option.some.inj hgA
    rw [← hx] at hstA
    cases hstA

/-- An edge of the graph makes each endpoint a neighbor of the other. -/
theorem mem_nbrs_of_has_edge (G : Graph) (A B : String) (hAB : A ≠ B)
    (h : G.has_edge A B = true) : B ∈ G.nbrs A ∧ A ∈ G.nbrs B := by
  unfold Graph.has_edge at h
  rcases List.any_eq_true.mp h with ⟨e, he, hk⟩
  unfold keyMatches at hk
  rw [decide_eq_true_eq] at hk
  constructor
  · apply List.mem_filterMap.mpr
    refine ⟨e, he, ?_⟩
    rcases hk with ⟨h1, h2⟩ | ⟨h1, h2⟩
    · rw [if_pos h1, h2]
    · rw [if_neg (by rw [h1]; exact fun hh => hAB hh.symm), if_pos h2, h1]
  · apply List.mem_filterMap.mpr
    refine ⟨e, he, ?_⟩
    rcases hk with ⟨h1, h2⟩ | ⟨h1, h2⟩
    · rw [if_neg (by rw [h1]; exact hAB), if_pos h2, h1]
    · rw [if_pos h1, h2]

/-- Claim 10 input: two routers joined by one explicit link. -/
def parsedC10 : Parsed :=
  [("R1", mkRec [mkIf "e0" none 1500 100000 (some ("R2", "e0"))]), ("R2", mkRec [])]

/-- Claim 10 schedule: both workers start, exchange hello/ack to quiescence,
then their windows expire. -/
def traceC10 : List Ev :=
  [.start "R1", .start "R2", .recv "R2", .recv "R1", .recv "R1", .recv "R2",
   .finish "R1", .finish "R2"]

/-- `R1`'s final worker state under `traceC10`. -/
def stR1C10 : NodeSt :=
  ⟨true, true, [], [("R2", .NEIGHBOR_HELLO), ("R2", .NEIGHBOR_ACK)]⟩

/-- `R2`'s final worker state under `traceC10`. -/
def stR2C10 : NodeSt :=
  ⟨true, true, [], [("R1", .NEIGHBOR_HELLO), ("R1", .NEIGHBOR_ACK)]⟩

/-- The final simulation state under `traceC10`. -/
def finalC10 : SimState := [("R1", stR1C10), ("R2", stR2C10)]

/-- **C10** (confirmed, under the interleaving model of the thread
simulation).  For two router-kind nodes joined by an edge of the built
topology: in any valid schedule after which both workers have started and
both mailboxes have been drained (the runs not hit by the documented
soft-join/window race, in which in-flight messages are lost), each router's
log contains an entry whose sender is the other router with kind
`NEIGHBOR_HELLO` or `NEIGHBOR_ACK`. -/
theorem claim10_discovery_mutual_hello (parsed : Parsed) (A B : String)
    (trace : List Ev) (final : SimState) (stA stB : NodeSt)
    (hAB : A ≠ B)
    (hA : A ∈ routerNodes (build_topology parsed))
    (hB : B ∈ routerNodes (build_topology parsed))
    (hE : (build_topology parsed).has_edge A B = true)
    (hrun : runTrace (build_topology parsed) (initSim (build_topology parsed)) trace =
      some final)
    (hgA : getSt final A = some stA) (hgB : getSt final B = some stB)
    (hsA : stA.started = true) (hsB : stB.started = true)
    (hiA : stA.inbox = []) (hiB : stB.inbox = []) :
    (∃ k, (B, k) ∈ stA.log ∧ (k = MsgType.NEIGHBOR_HELLO ∨ k = MsgType.NEIGHBOR_ACK)) ∧
      (∃ k, (A, k) ∈ stB.log ∧ (k = MsgType.NEIGHBOR_HELLO ∨ k = MsgType.NEIGHBOR_ACK)) := by
  have hnAB : B ∈ routerNeighborhood (build_topology parsed) A := by
    unfold routerNeighborhood
    apply List.mem_filter.mpr
    exact ⟨(mem_nbrs_of_has_edge _ A B hAB hE).1, decide_eq_true hB⟩
  have hnBA : A ∈ routerNeighborhood (build_topology parsed) B := by
    unfold routerNeighborhood
    apply List.mem_filter.mpr
    exact ⟨(mem_nbrs_of_has_edge _ A B hAB hE).2, decide_eq_true hA⟩
  have hinvAB := runTrace_preserves_helloInv (build_topology parsed) A B hnAB trace
    (initSim (build_topology parsed)) final hrun (helloInv_initSim _ A B)
  have hinvBA := runTrace_preserves_helloInv (build_topology parsed) B A hnBA trace
    (initSim (build_topology parsed)) final hrun (helloInv_initSim _ B A)
  constructor
  · rcases hinvBA stB stA hgB hgA hsB with h | h
    · rw [hiA] at h
      cases h
    · exact ⟨MsgType.NEIGHBOR_HELLO, h, Or.inl rfl⟩
  · rcases hinvAB stA stB hgA hgB hsA with h | h
    · rw [hiB] at h
      cases h
    · exact ⟨MsgType.NEIGHBOR_HELLO, h, Or.inl rfl⟩

/-! ### Cycle detection semantics (claim 6)

The spec-side meaning of "the topology graph, treated as undirected, contains
at least one cycle" is phrased over Mathlib's `SimpleGraph`: either some
stored edge is a self-loop, or the simple graph induced by the stored edge
keys is not acyclic. -/

/-- The simple graph induced by an edge-key list (self-loops drop out, as
`SimpleGraph` is loopless). -/
def toSG (E : List (String × String)) : SimpleGraph String where
  Adj u v := u ≠ v ∧ ((u, v) ∈ E ∨ (v, u) ∈ E)
  symm := by
    intro u v h
    exact ⟨fun hh => h.1 hh.symm, h.2.symm⟩
  loopless := by
    intro u h
    exact h.1 rfl

/-- Some stored edge joins a device to itself. -/
def HasSelfLoop (E : List (String × String)) : Prop := ∃ u, (u, u) ∈ E

/-- The spec's "contains at least one cycle": a self-loop, or a cycle of the
induced simple graph. -/
def HasCycle (E : List (String × String)) : Prop :=
  HasSelfLoop E ∨ ¬ (toSG E).IsAcyclic

/-- Both endpoints of every stored edge. -/
def edgeVerts (E : List (String × String)) : List String :=
  E.flatMap (fun e => [e.1, e.2])

theorem length_edgeVerts (E : List (String × String)) :
    (edgeVerts E).length = 2 * E.length := by
  unfold edgeVerts
  induction E with
  | nil => rfl
  | cons e es ih =>
    rw [List.flatMap_cons, List.length_append, ih]
    simp [Nat.mul_add, Nat.mul_succ]
    omega

theorem reachN_sound (E : List (String × String)) :
    ∀ (n : Nat) (S : List String) (v : String), v ∈ reachN E n S →
      ∃ u ∈ S, (toSG E).Reachable u v := by
  intro n
  induction n with
  | zero =>
    intro S v hv
    exact ⟨v, hv, SimpleGraph.Reachable.refl v⟩
  | succ n ih =>
    intro S v hv
    rw [reachN] at hv
    rcases ih (reachStep E S) v hv with ⟨u, hu, hr⟩
    unfold reachStep at hu
    rcases List.mem_append.mp hu with hu | hu
    · exact ⟨u, hu, hr⟩
    · rcases List.mem_flatMap.mp hu with ⟨e, he, hmem⟩
      rcases List.mem_append.mp hmem with h | h
      · split at h
        · rename_i hcond
          rw [List.mem_singleton] at h
          subst h
          have hne : e.1 ≠ e.2 := fun hh => hcond.2 (hh ▸ hcond.1)
          have hadj : (toSG E).Adj e.1 e.2 := by
            exact ⟨hne, Or.inl (by rcases e with ⟨a, b⟩; exact he)⟩
          exact ⟨e.1, hcond.1, hadj.reachable.trans hr⟩
        · cases h
      · split at h
        · rename_i hcond
          rw [List.mem_singleton] at h
          subst h
          have hne : e.2 ≠ e.1 := fun hh => hcond.2 (hh ▸ hcond.1)
          have hadj : (toSG E).Adj e.2 e.1 := by
            exact ⟨hne, Or.inr (by rcases e with ⟨a, b⟩; exact he)⟩
          exact ⟨e.2, hcond.1, hadj.reachable.trans hr⟩
        · cases h

theorem mem_reachN_self (E : List (String × String)) :
    ∀ (n : Nat) (S : List String) (v : String), v ∈ S → v ∈ reachN E n S := by
  intro n
  induction n with
  | zero => intro S v hv; exact hv
  | succ n ih =>
    intro S v hv
    rw [reachN]
    exact ih (reachStep E S) v (List.mem_append_left _ hv)

theorem adj_mem_reachStep (E : List (String × String)) (S : List String)
    (a c : String) (ha : a ∈ S) (h : (toSG E).Adj a c) : c ∈ reachStep E S := by
  by_cases hc : c ∈ S
  · exact List.mem_append_left _ hc
  · apply List.mem_append_right
    rcases h.2 with hm | hm
    · apply List.mem_flatMap.mpr
      refine ⟨(a, c), hm, ?_⟩
      apply List.mem_append_left
      rw [if_pos ⟨ha, hc⟩]
      exact List.mem_singleton.mpr rfl
    · apply List.mem_flatMap.mpr
      refine ⟨(c, a), hm, ?_⟩
      apply List.mem_append_right
      rw [if_pos ⟨ha, hc⟩]
      exact List.mem_singleton.mpr rfl

theorem walk_reachN (E : List (String × String)) {a b : String}
    (p : (toSG E).Walk a b) :
    ∀ (n : Nat) (S : List String), p.length ≤ n → a ∈ S → b ∈ reachN E n S := by
  induction p with
  | nil =>
    intro n S _ ha
    exact mem_reachN_self E n S _ ha
  | cons h q ih =>
    intro n S hlen hu
    cases n with
    | zero => simp [SimpleGraph.Walk.length_cons] at hlen
    | succ n =>
      rw [reachN]
      exact ih n (reachStep E S)
        (by simpa [SimpleGraph.Walk.length_cons] using hlen)
        (adj_mem_reachStep E S _ _ hu h)

theorem walk_support_mem (E : List (String × String)) {a b : String}
    (p : (toSG E).Walk a b) :
    ∀ x ∈ p.support, x = a ∨ x ∈ edgeVerts E := by
  induction p with
  | nil =>
    intro x hx
    rw [SimpleGraph.Walk.support_nil, List.mem_singleton] at hx
    exact Or.inl hx
  | cons h q ih =>
    intro x hx
    rw [SimpleGraph.Walk.support_cons] at hx
    rcases List.mem_cons.mp hx with rfl | hx
    · exact Or.inl rfl
    · rcases ih x hx with rfl | hmem
      · right
        rcases h.2 with hm | hm
        · exact List.mem_flatMap.mpr ⟨_, hm, by simp⟩
        · exact List.mem_flatMap.mpr ⟨_, hm, by simp⟩
      · exact Or.inr hmem

theorem connectedB_complete (E : List (String × String)) (u v : String)
    (h : (toSG E).Reachable u v) : connectedB E u v = true := by
  rcases h with ⟨w⟩
  have hpath := w.toPath.2
  have hnodup : (w.toPath.1).support.Nodup := hpath.support_nodup
  have hsub : (w.toPath.1).support ⊆ u :: edgeVerts E := by
    intro x hx
    rcases walk_support_mem E (w.toPath.1) x hx with rfl | hmem
    · exact List.mem_cons_self _ _
    · exact List.mem_cons_of_mem _ hmem
  have hlen : (w.toPath.1).support.length ≤ (u :: edgeVerts E).length :=
    (List.subperm_of_subset hnodup hsub).length_le
  rw [SimpleGraph.Walk.length_support, List.length_cons, length_edgeVerts] at hlen
  have hmem : v ∈ reachN E (2 * E.length + 1) [u] :=
    walk_reachN E (w.toPath.1) (2 * E.length + 1) [u] (by omega)
      (List.mem_singleton.mpr rfl)
  unfold connectedB
  exact decide_eq_true hmem

theorem connectedB_sound (E : List (String × String)) (u v : String)
    (h : connectedB E u v = true) : (toSG E).Reachable u v := by
  unfold connectedB at h
  have hv := of_decide_eq_true h
  rcases reachN_sound E _ [u] v hv with ⟨u0, hu0, hr⟩
  rw [List.mem_singleton] at hu0
  subst hu0
  exact hr

/-- Pairwise distinctness of stored edge keys as unordered pairs (no two
stored edges denote the same undirected edge). -/
def SymNodup (K : List (String × String)) : Prop :=
  K.Pairwise (fun e f => e ≠ f ∧ e ≠ (f.2, f.1))

theorem sym2_ne_of_symNe {e f : String × String} (h : e ≠ f ∧ e ≠ (f.2, f.1)) :
    s(e.1, e.2) ≠ s(f.1, f.2) := by
  intro heq
  rcases Sym2.eq_iff.mp heq with ⟨h1, h2⟩ | ⟨h1, h2⟩
  · exact h.1 (Prod.ext_iff.mpr ⟨h1, h2⟩)
  · exact h.2 (Prod.ext_iff.mpr ⟨h1, h2⟩)

/-- The already-scanned edges, with the current edge removed from the full
graph, keep all their adjacencies: the current edge is sym-distinct from every
earlier one. -/
theorem toSG_seen_le_delete (seen todo : List (String × String))
    (e : String × String) (hnd : SymNodup (seen ++ e :: todo)) :
    toSG seen ≤ (toSG (seen ++ e :: todo)) \ SimpleGraph.fromEdgeSet {s(e.1, e.2)} := by
  intro a b hab
  rcases hab with ⟨hne, hm⟩
  rw [SimpleGraph.sdiff_adj]
  constructor
  · refine ⟨hne, ?_⟩
    rcases hm with hm | hm
    · exact Or.inl (List.mem_append_left _ hm)
    · exact Or.inr (List.mem_append_left _ hm)
  · rw [SimpleGraph.fromEdgeSet_adj]
    rintro ⟨hs, -⟩
    rw [Set.mem_singleton_iff] at hs
    have hpw := (List.pairwise_append.mp hnd).2.2
    rcases hm with hm | hm
    · exact sym2_ne_of_symNe (hpw (a, b) hm e (List.mem_cons_self _ _)) hs
    · exact sym2_ne_of_symNe (hpw (b, a) hm e (List.mem_cons_self _ _))
        ((Sym2.eq_swap).trans hs)

/-- Conversely, deleting the freshly appended edge leaves a subgraph of the
scanned edges. -/
theorem delete_le_toSG_seen (seen : List (String × String)) (e : String × String) :
    (toSG (seen ++ [e])) \ SimpleGraph.fromEdgeSet {s(e.1, e.2)} ≤ toSG seen := by
  intro a b hab
  rw [SimpleGraph.sdiff_adj] at hab
  rcases hab with ⟨⟨hne, hm⟩, hnadj⟩
  rw [SimpleGraph.fromEdgeSet_adj] at hnadj
  refine ⟨hne, ?_⟩
  rcases hm with hm | hm
  · rcases List.mem_append.mp hm with hm | hm
    · exact Or.inl hm
    · rw [List.mem_singleton] at hm
      exfalso
      apply hnadj
      refine ⟨?_, hne⟩
      rw [Set.mem_singleton_iff, ← hm]
  · rcases List.mem_append.mp hm with hm | hm
    · exact Or.inr hm
    · rw [List.mem_singleton] at hm
      exfalso
      apply hnadj
      refine ⟨?_, hne⟩
      rw [Set.mem_singleton_iff, ← hm]
      exact Sym2.eq_swap

/-- An edge of the extended scan that is not the fresh edge lies in the
scanned part. -/
theorem edge_transfer_toSeen (seen : List (String × String)) (e : String × String)
    (ed : Sym2 String) (hfull : ed ∈ (toSG (seen ++ [e])).edgeSet)
    (hne : ed ≠ s(e.1, e.2)) : ed ∈ (toSG seen).edgeSet := by
  induction ed using Sym2.ind with
  | _ x y =>
    rw [SimpleGraph.mem_edgeSet] at hfull ⊢
    rcases hfull with ⟨hxy, hm | hm⟩
    · rcases List.mem_append.mp hm with hm | hm
      · exact ⟨hxy, Or.inl hm⟩
      · rw [List.mem_singleton] at hm
        exfalso
        apply hne
        rw [← hm]
    · rcases List.mem_append.mp hm with hm | hm
      · exact ⟨hxy, Or.inr hm⟩
      · rw [List.mem_singleton] at hm
        exfalso
        apply hne
        rw [← hm]
        exact Sym2.eq_swap

/-- If the scan fires on some edge, the graph has a cycle. -/
theorem cbAux_fire :
    ∀ (todo seen : List (String × String)), SymNodup (seen ++ todo) →
      cbAux seen todo ≠ [] → HasCycle (seen ++ todo) := by
  intro todo
  induction todo with
  | nil =>
    intro seen _ hne
    exact absurd rfl hne
  | cons e todo ih =>
    intro seen hnd hne
    by_cases hself : e.1 = e.2
    · refine Or.inl ⟨e.1, ?_⟩
      have he : (e.1, e.1) = e := by
        rcases e with ⟨a, b⟩
        cases hself
        rfl
      rw [he]
      exact List.mem_append_right _ (List.mem_cons_self _ _)
    · by_cases hconn : connectedB seen e.1 e.2 = true
      · right
        intro hacyc
        have hreach := connectedB_sound seen e.1 e.2 hconn
        have hreach2 := hreach.mono (toSG_seen_le_delete seen todo e hnd)
        have hadj : (toSG (seen ++ e :: todo)).Adj e.1 e.2 := by
          refine ⟨hself, Or.inl ?_⟩
          rcases e with ⟨a, b⟩
          exact List.mem_append_right _ (List.mem_cons_self _ _)
        rcases SimpleGraph.adj_and_reachable_delete_edges_iff_exists_cycle.mp
          ⟨hadj, hreach2⟩ with ⟨u, c, hc, -⟩
        exact hacyc c hc
      · have hstep : cbAux (seen ++ [e]) todo ≠ [] := by
          unfold cbAux at hne
          rw [if_neg hself, if_neg hconn] at hne
          exact hne
        have hnd' : SymNodup ((seen ++ [e]) ++ todo) := by
          rw [List.append_assoc, List.singleton_append]
          exact hnd
        have hcyc := ih (seen ++ [e]) hnd' hstep
        rw [List.append_assoc, List.singleton_append] at hcyc
        exact hcyc

theorem toSG_nil_isAcyclic : (toSG []).IsAcyclic := by
  intro v c hc
  have h3 := hc.three_le_length
  have hpos : 0 < c.edges.length := by
    rw [SimpleGraph.Walk.length_edges]
    omega
  rcases List.exists_mem_of_length_pos hpos with ⟨ed, hed⟩
  have hfull := c.edges_subset_edgeSet hed
  induction ed using Sym2.ind with
  | _ x y =>
    rw [SimpleGraph.mem_edgeSet] at hfull
    rcases hfull with ⟨-, hm | hm⟩ <;> cases hm

/-- If the scan never fires, the graph is self-loop-free and acyclic. -/
theorem cbAux_nofire :
    ∀ (todo seen : List (String × String)), SymNodup (seen ++ todo) →
      cbAux seen todo = [] →
      (¬ HasSelfLoop seen ∧ (toSG seen).IsAcyclic) →
      ¬ HasSelfLoop (seen ++ todo) ∧ (toSG (seen ++ todo)).IsAcyclic := by
  intro todo
  induction todo with
  | nil =>
    intro seen _ _ hbase
    rw [List.append_nil]
    exact hbase
  | cons e todo ih =>
    intro seen hnd hcb hbase
    unfold cbAux at hcb
    by_cases hself : e.1 = e.2
    · rw [if_pos hself] at hcb
      cases hcb
    · rw [if_neg hself] at hcb
      by_cases hconn : connectedB seen e.1 e.2 = true
      · rw [if_pos hconn] at hcb
        cases hcb
      · rw [if_neg hconn] at hcb
        have hstep : ¬ HasSelfLoop (seen ++ [e]) ∧ (toSG (seen ++ [e])).IsAcyclic := by
          constructor
          · rintro ⟨u, hu⟩
            rcases List.mem_append.mp hu with hu | hu
            · exact hbase.1 ⟨u, hu⟩
            · rw [List.mem_singleton] at hu
              exact hself (by rw [← hu])
          · intro v c hc
            by_cases he : s(e.1, e.2) ∈ c.edges
            · rcases SimpleGraph.adj_and_reachable_delete_edges_iff_exists_cycle.mpr
                ⟨v, c, hc, he⟩ with ⟨-, hreach⟩
              have hr := hreach.mono (delete_le_toSG_seen seen e)
              exact hconn (connectedB_complete seen e.1 e.2 hr)
            · have hsub : ∀ ed ∈ c.edges, ed ∈ (toSG seen).edgeSet := fun ed hed =>
                edge_transfer_toSeen seen e ed (c.edges_subset_edgeSet hed)
                  (fun hh => he (hh ▸ hed))
              exact hbase.2 (c.transfer (toSG seen) hsub) (hc.transfer hsub)
        have hnd' : SymNodup ((seen ++ [e]) ++ todo) := by
          rw [List.append_assoc, List.singleton_append]
          exact hnd
        have hfin := ih (seen ++ [e]) hnd' hcb hstep
        rw [List.append_assoc, List.singleton_append] at hfin
        exact hfin

/-- The modelled `cycle_basis` worker is empty exactly on cycle-free graphs. -/
theorem cbAux_empty_iff (K : List (String × String)) (hnd : SymNodup K) :
    cbAux [] K = [] ↔ ¬ HasCycle K := by
  constructor
  · intro hcb
    have hres := cbAux_nofire K [] (by simpa using hnd) hcb
      (by
        constructor
        · rintro ⟨u, hu⟩
          cases hu
        · exact toSG_nil_isAcyclic)
    rw [List.nil_append] at hres
    rintro (h | h)
    · exact hres.1 h
    · exact h hres.2
  · intro hnc
    by_contra hne
    exact hnc (by simpa using cbAux_fire K [] (by simpa using hnd) hne)

/-- A property preserved by every step survives a fold. -/
theorem foldl_preserve {α σ : Type} (P : σ → Prop) (f : σ → α → σ)
    (hf : ∀ s a, P s → P (f s a)) :
    ∀ (l : List α) (s : σ), P s → P (l.foldl f s) := by
  intro l
  induction l with
  | nil => intro s h; exact h
  | cons a as ih => intro s h; exact ih (f s a) (hf s a h)

/-- A map that fixes the key component fixes the key list. -/
theorem keys_of_keyfixing_map (es : List ((String × String) × EdgeData))
    (f : (String × String) × EdgeData → (String × String) × EdgeData)
    (hf : ∀ e, (f e).1 = e.1) : (es.map f).map (·.1) = es.map (·.1) := by
  rw [List.map_map]
  exact List.map_congr_left (fun e _ => hf e)

theorem links_add_keys (G : Graph) (u v : String) (t : Link) :
    (G.links_add u v t).edges.map (·.1) = G.edges.map (·.1) := by
  unfold Graph.links_add
  exact keys_of_keyfixing_map G.edges _ (fun e => by split <;> rfl)

theorem annotate_keys (parsed : Parsed) (G : Graph) :
    (annotate parsed G).edges.map (·.1) = G.edges.map (·.1) := by
  unfold annotate
  exact keys_of_keyfixing_map G.edges _ (fun e => rfl)

/-- Appending an edge that `has_edge` rules out keeps the keys sym-distinct. -/
theorem symNodup_append_absent (G : Graph) (u v : String)
    (hhe : ¬ G.has_edge u v = true) (h : SymNodup (G.edges.map (·.1))) :
    SymNodup ((G.edges ++ [((u, v), (⟨[], none, none⟩ : EdgeData))]).map (·.1)) := by
  rw [List.map_append]
  rw [SymNodup, List.pairwise_append]
  refine ⟨h, List.pairwise_singleton _ _, ?_⟩
  intro a ha b hb
  rw [List.map_singleton, List.mem_singleton] at hb
  subst hb
  rcases List.mem_map.mp ha with ⟨e, he, rfl⟩
  have hnk : ¬ (keyMatches u v e.1 = true) := by
    intro hk
    exact hhe (List.any_eq_true.mpr ⟨e, he, hk⟩)
  unfold keyMatches at hnk
  rw [decide_eq_true_eq] at hnk
  constructor
  · intro hh
    apply hnk
    left
    rw [hh]
    exact ⟨rfl, rfl⟩
  · intro hh
    apply hnk
    right
    rw [hh]
    exact ⟨rfl, rfl⟩

theorem symNodup_add_edge_reset (G : Graph) (u v : String)
    (h : SymNodup (G.edges.map (·.1))) :
    SymNodup ((G.add_edge_reset_links u v).edges.map (·.1)) := by
  unfold Graph.add_edge_reset_links
  split
  · show SymNodup ((G.edges.map (fun e =>
      if keyMatches u v e.1 then (e.1, { e.2 with links := [] }) else e)).map (·.1))
    rw [keys_of_keyfixing_map G.edges _ (fun e => by split <;> rfl)]
    exact h
  · exact symNodup_append_absent G u v (by assumption) h

theorem symNodup_add_edge_if_absent (G : Graph) (u v : String)
    (h : SymNodup (G.edges.map (·.1))) :
    SymNodup ((G.add_edge_if_absent u v).edges.map (·.1)) := by
  unfold Graph.add_edge_if_absent
  split
  · exact h
  · exact symNodup_append_absent G u v (by assumption) h

theorem symNodup_links_add (G : Graph) (u v : String) (t : Link)
    (h : SymNodup (G.edges.map (·.1))) :
    SymNodup ((G.links_add u v t).edges.map (·.1)) := by
  rw [links_add_keys]
  exact h

theorem addNodesPass_edges (parsed : Parsed) : (addNodesPass parsed).edges = [] := by
  unfold addNodesPass
  refine foldl_preserve (fun G : Graph => G.edges = []) _ ?_ parsed _ rfl
  intro G nd hG
  unfold Graph.add_node
  split
  · exact hG
  · exact hG

theorem symNodup_pass1 (parsed : Parsed) (G0 : Graph)
    (h : SymNodup (G0.edges.map (·.1))) :
    SymNodup ((pass1 parsed G0).edges.map (·.1)) := by
  unfold pass1
  refine foldl_preserve (fun G : Graph => SymNodup (G.edges.map (·.1))) _ ?_ parsed G0 h
  intro G nd hG
  refine foldl_preserve (fun G : Graph => SymNodup (G.edges.map (·.1))) _ ?_ nd.2.interfaces G hG
  intro G1 intf hG1
  cases hct : intf.connects_to with
  | none => exact hG1
  | some bp =>
    dsimp only []
    split
    · exact symNodup_links_add _ _ _ _ (symNodup_add_edge_reset G1 nd.1 bp.1 hG1)
    · exact hG1

theorem symNodup_pass2 (parsed : Parsed) (G0 : Graph)
    (h : SymNodup (G0.edges.map (·.1))) :
    SymNodup ((pass2 parsed G0).edges.map (·.1)) := by
  unfold pass2
  refine foldl_preserve (fun G : Graph => SymNodup (G.edges.map (·.1))) _ ?_
    (pairs2 (iface_list parsed)) G0 h
  intro G pr hG
  dsimp only []
  split
  · exact symNodup_links_add _ _ _ _ (symNodup_add_edge_if_absent G pr.1.1 pr.2.1 hG)
  · exact hG

/-- No two stored edges of any built topology denote the same undirected
edge. -/
theorem build_symNodup (parsed : Parsed) :
    SymNodup ((build_topology parsed).edges.map (·.1)) := by
  unfold build_topology
  rw [annotate_keys]
  apply symNodup_pass2
  apply symNodup_pass1
  rw [addNodesPass_edges]
  exact List.Pairwise.nil

/-- **C6** (confirmed).  The detector emits a `network_loops` issue iff the
built topology graph, treated as undirected, contains at least one cycle (a
self-loop edge or a cycle of the induced simple graph); in particular every
acyclic (tree/forest) topology yields no such issue.  The issue carries the
full list produced by the (contract-modelled) `cycle_basis` routine. -/
theorem claim6_network_loops_iff_cycle (parsed : Parsed) :
    (∃ cs, Issue.network_loops cs ∈ detect_issues parsed (build_topology parsed)) ↔
      HasCycle ((build_topology parsed).edges.map (·.1)) := by
  have hiff := cbAux_empty_iff ((build_topology parsed).edges.map (·.1))
    (build_symNodup parsed)
  constructor
  · rintro ⟨cs, hcs⟩
    have hloop : Issue.network_loops cs ∈ loop_issues (build_topology parsed) := by
      unfold detect_issues at hcs
      simp only [List.mem_append, or_assoc] at hcs
      rcases hcs with h | h | h | h | h | h
      · rcases dup_ip_issues_shape parsed _ h with ⟨ip, devs, heq⟩; cases heq
      · rcases wrong_vlan_issues_shape parsed _ h with ⟨n, s, v, heq⟩; cases heq
      · rcases gateway_issues_shape parsed _ h with ⟨n, g, heq⟩; cases heq
      · rcases mtu_issues_shape _ _ h with ⟨l, a, b, heq⟩; cases heq
      · exact h
      · have hh := bgp_issues_shape parsed _ h; cases hh
    simp only [loop_issues] at hloop
    split at hloop
    · cases hloop
    · rename_i hempty
      by_contra hnc
      apply hempty
      have hcb : cbAux [] ((build_topology parsed).edges.map (·.1)) = [] := hiff.mpr hnc
      show (cycle_basis (build_topology parsed)).isEmpty = true
      unfold cycle_basis
      rw [hcb]
      rfl
  · intro hcyc
    have hne : cycle_basis (build_topology parsed) ≠ [] := by
      unfold cycle_basis
      intro heq
      exact (hiff.mp heq) hcyc
    refine ⟨cycle_basis (build_topology parsed), ?_⟩
    unfold detect_issues
    simp only [List.mem_append, or_assoc]
    refine Or.inr (Or.inr (Or.inr (Or.inr (Or.inl ?_))))
    simp only [loop_issues]
    rw [if_neg (by simpa [List.isEmpty_iff] using hne)]
    exact List.mem_singleton.mpr rfl

/-- **C10** (witness). -/
theorem claim10_witness :
    (∃ k, ("R2", k) ∈ stR1C10.log ∧
        (k = MsgType.NEIGHBOR_HELLO ∨ k = MsgType.NEIGHBOR_ACK)) ∧
      (∃ k, ("R1", k) ∈ stR2C10.log ∧
        (k = MsgType.NEIGHBOR_HELLO ∨ k = MsgType.NEIGHBOR_ACK)) :=
  claim10_discovery_mutual_hello parsedC10 "R1" "R2" traceC10 finalC10 stR1C10 stR2C10
    (by decide) (by decide) (by decide) (by decide) (by rfl) (by rfl) (by rfl)
    rfl rfl rfl rfl

end NetTool
